import Mathlib

/-!
# Workload address generators (`multilevelTLBWorkload/workloads.cpp`)

A shallow embedding of the three generator classes of `workloads.cpp`
(`MachineLearningWorkload`, `AAAGamesWorkload`, `StatelessMicroserviceWorkload`)
together with the stream formatting they share, followed by theorems about them.

Conventions of the embedding:

* `uint64_t` values are natural numbers, every arithmetic result reduced `% 2 ^ 64`;
* `int` values are integers; the conversions `int → uint64_t` and `size_t → int`
  that the C++ expressions perform implicitly are the explicit `toU64` and `toInt32`;
* a member function that mutates the object returns the new object next to its result;
* `rand()` reads the next value of a stream `rnd : Nat → Nat` at a position that is
  threaded through the calls;
* an operation whose behaviour is undefined or that throws (modulo by zero, indexing
  out of range, `reserve` of a negative count) returns `none`.
-/

namespace Workloads

/-! ## Stream formatting: `"0x" << setw(8) << setfill('0') << hex << v` -/

/-- Modulus of `uint64_t` arithmetic. -/
def U64 : Nat := 2 ^ 64

/-- The lowercase hexadecimal digit character of a digit value below 16. -/
def hexChar (d : Nat) : Char :=
  if d < 10 then Char.ofNat (48 + d) else Char.ofNat (87 + d)

/-- Digit loop of the `std::hex` conversion: most significant digit first, no leading zero,
the single digit `0` for the value zero.  The first argument bounds the number of digits
still to be produced. -/
def hexDigitsAux : Nat → Nat → List Char → List Char
  | 0, v, acc => hexChar (v % 16) :: acc
  | fuel + 1, v, acc =>
    if v < 16 then hexChar v :: acc
    else hexDigitsAux fuel (v / 16) (hexChar (v % 16) :: acc)

/-- Text `std::hex` writes for an unsigned value (a value `v` has at most `v + 1` digits). -/
def hexDigits (v : Nat) : List Char := hexDigitsAux v v []

/-- Text of `stream << "0x" << std::setw(8) << std::setfill('0') << std::hex << v`:
the width 8 and the fill character apply to the number, which is right-adjusted, so
the digits are padded on the left up to a minimum of eight characters. -/
def formatAddress (v : Nat) : String :=
  "0x" ++ String.mk (List.leftpad 8 '0' (hexDigits v))

/-- Value of a hexadecimal digit character (`0`-`9`, `a`-`f`). -/
def hexCharValue (c : Char) : Nat :=
  if 97 ≤ c.toNat then c.toNat - 87 else c.toNat - 48

/-- Reads a most-significant-first hexadecimal digit string back as a number. -/
def hexValue (cs : List Char) : Nat :=
  cs.foldl (fun n c => 16 * n + hexCharValue c) 0

/-- The characters allowed in a lowercase hexadecimal numeral. -/
def isLowerHex (c : Char) : Bool :=
  (48 ≤ c.toNat && c.toNat ≤ 57) || (97 ≤ c.toNat && c.toNat ≤ 102)


/-! ## Integer conversions performed implicitly by the C++ expressions -/

/-- Conversion of an `int` to `uint64_t` / `size_t` (reduction modulo `2 ^ 64`). -/
def toU64 (i : Int) : Nat := (i % (2 ^ 64 : Int)).toNat

/-- Conversion of a `size_t` to `int` (reduction modulo `2 ^ 32` into the signed range). -/
def toInt32 (n : Nat) : Int :=
  if n % 2 ^ 32 < 2 ^ 31 then ((n % 2 ^ 32 : Nat) : Int) else ((n % 2 ^ 32 : Nat) : Int) - 2 ^ 32

/-! ## `class MachineLearningWorkload` -/

/-- Data members of `MachineLearningWorkload`. -/
structure MachineLearningWorkload where
  currentAddress : Nat
  virtualAddressSpaceSize : Nat
  segmentSize : Nat
  addresses : List String
  deriving DecidableEq

namespace MachineLearningWorkload

/-- The `for (addr = 4 * segmentSize; addr < virtualAddressSpaceSize; addr += segmentSize)`
loop of `generateAddresses`, run for at most `fuel` evaluations of its condition;
`none` when the loop has not ended by then. -/
def generateAddressesLoop (g : MachineLearningWorkload) :
    Nat → Nat → List String → Option (List String)
  | 0, _, _ => none
  | fuel + 1, addr, out =>
    if addr < g.virtualAddressSpaceSize then
      generateAddressesLoop g fuel ((addr + g.segmentSize) % U64) (out ++ [formatAddress addr])
    else some out

/-- Member `generateAddresses`: appends the precomputed strings to the member `addresses`. -/
def generateAddresses (fuel : Nat) (g : MachineLearningWorkload) :
    Option MachineLearningWorkload :=
  (generateAddressesLoop g fuel ((4 * g.segmentSize) % U64) g.addresses).map
    fun l => { g with addresses := l }

/-- Constructor `MachineLearningWorkload(virtualAddressSpaceSize, segmentSize)`: the
member initialisers followed by the call of `generateAddresses`. -/
def new (fuel : Nat) (virtualAddressSpaceSize segmentSize : Nat) :
    Option MachineLearningWorkload :=
  generateAddresses fuel
    { currentAddress := (4 * segmentSize) % U64
      virtualAddressSpaceSize := virtualAddressSpaceSize
      segmentSize := segmentSize
      addresses := [] }

/-- Member `getNextSequentialAddress`: reset when the counter has reached the end of the
space, format the counter, then advance it by `segmentSize`. -/
def getNextSequentialAddress (g : MachineLearningWorkload) :
    String × MachineLearningWorkload :=
  let cur :=
    if g.currentAddress ≥ g.virtualAddressSpaceSize then (4 * g.segmentSize) % U64
    else g.currentAddress
  (formatAddress cur, { g with currentAddress := (cur + g.segmentSize) % U64 })

/-- The `for (int i = 0; i < size; ++i)` loop of `generateWorkload` with `n` iterations
left; `out` is the local vector `addresses`. -/
def generateWorkloadLoop :
    Nat → List String → MachineLearningWorkload → List String × MachineLearningWorkload
  | 0, out, g => (out, g)
  | n + 1, out, g =>
    let r := getNextSequentialAddress g
    generateWorkloadLoop n (out ++ [r.1]) r.2

/-- Member `generateWorkload(int size)`; the loop body runs `max size 0` times. -/
def generateWorkload (g : MachineLearningWorkload) (size : Int) :
    List String × MachineLearningWorkload :=
  generateWorkloadLoop size.toNat [] g

/-- State of the object after `m` successive calls of `getNextSequentialAddress`. -/
def advance : Nat → MachineLearningWorkload → MachineLearningWorkload
  | 0, g => g
  | m + 1, g => advance m (getNextSequentialAddress g).2

end MachineLearningWorkload

/-! ## `class AAAGamesWorkload` -/

/-- The C library constant `RAND_MAX` (value of glibc); `rand()` returns values in
`[0, RAND_MAX]`. -/
def RAND_MAX : Nat := 2147483647

/-- Nearest integer to `a / b`, a tie going to the even neighbour. -/
def roundHalfEven (a b : Nat) : Nat :=
  if 2 * (a % b) < b then a / b
  else if b < 2 * (a % b) then a / b + 1
  else if (a / b) % 2 = 0 then a / b
  else a / b + 1

/-- Value of the `double` division `static_cast<double>(a) / b` of two integers that a
`double` holds exactly (any `int` is one): the quotient rounded to the nearest number with
a 53-bit significand, ties to even, as IEEE 754 binary64 division does.  With `e` the
exponent of the quotient (`2 ^ e ≤ a / b < 2 ^ (e + 1)`) the result is the nearest integer
to `a / b * 2 ^ (52 - e)`, scaled back. -/
def doubleQuotient (a b : Nat) : ℚ :=
  if a = 0 ∨ b = 0 then 0
  else
    let e0 : Int := (Nat.log2 a : Int) - (Nat.log2 b : Int)
    let e : Int := if b * 2 ^ e0.toNat ≤ a * 2 ^ (-e0).toNat then e0 else e0 - 1
    let s : Int := 52 - e
    let n := roundHalfEven (a * 2 ^ s.toNat) (b * 2 ^ (-s).toNat)
    ((n * 2 ^ (-s).toNat : Nat) : ℚ) / ((2 ^ s.toNat : Nat) : ℚ)

/-- Data members of `AAAGamesWorkload`; `addresses` is the member declared last in the
class ("To store generated addresses and avoid loops"). -/
structure AAAGamesWorkload where
  numAssets : Int
  reuseProbability : ℚ
  segmentSizes : List Nat
  assets : List String
  addresses : List String
  deriving DecidableEq

namespace AAAGamesWorkload

/-- Member `generateAssetAddress(int index)`: two calls of `rand()`, read at `pos` and
`pos + 1`.  Returns the string and the next stream position; `none` on a modulo by zero
(`segmentSizes` empty, or the chosen size zero). -/
def generateAssetAddress (g : AAAGamesWorkload) (_index : Int) (rnd : Nat → Nat) (pos : Nat) :
    Option (String × Nat) :=
  if g.segmentSizes.length = 0 then none
  else
    let segmentIndex := rnd pos % g.segmentSizes.length
    match g.segmentSizes.get? segmentIndex with
    | none => none
    | some sz =>
      if sz = 0 then none
      else
        let offset := rnd (pos + 1) % sz
        some (formatAddress ((segmentIndex * sz + offset) % U64), pos + 2)

/-- Member `generateFullHexAddress`: one `rand()` for the probability test, then either a
`rand()` to index the member `addresses` or a call of `generateAssetAddress`.  The test
compares the `double` quotient `static_cast<double>(rand()) / RAND_MAX` with
`reuseProbability`, whose value is a rational (a `double` that is not a number makes the
test fail like the value 0, an infinite one like `-1` or `2`). -/
def generateFullHexAddress (g : AAAGamesWorkload) (rnd : Nat → Nat) (pos : Nat) :
    Option (String × Nat) :=
  if decide (doubleQuotient (rnd pos) RAND_MAX < g.reuseProbability)
      && !g.addresses.isEmpty then
    (g.addresses.get? (rnd (pos + 1) % g.addresses.length)).map fun a => (a, pos + 2)
  else
    generateAssetAddress g (toInt32 g.assets.length) rnd (pos + 1)

/-- The `for (int i = 0; i < size; ++i)` loop of `generateWorkload` with `n` iterations
left; `out` is the local vector `addresses` (it shadows the member of the same name). -/
def generateWorkloadLoop (g : AAAGamesWorkload) (rnd : Nat → Nat) :
    Nat → List String → Nat → Option (List String × Nat)
  | 0, out, pos => some (out, pos)
  | n + 1, out, pos =>
    match generateFullHexAddress g rnd pos with
    | none => none
    | some (a, pos1) => generateWorkloadLoop g rnd n (out ++ [a]) pos1

/-- Member `generateWorkload(int size)`.  No data member is written, so the result is the
returned vector and the next stream position. -/
def generateWorkload (g : AAAGamesWorkload) (size : Int) (rnd : Nat → Nat) (pos : Nat) :
    Option (List String × Nat) :=
  generateWorkloadLoop g rnd size.toNat [] pos

/-- The `for (int i = 0; i < numAssets; ++i)` loop of the constructor with `n`
iterations left. -/
def newLoop (rnd : Nat → Nat) :
    Nat → Int → AAAGamesWorkload → Nat → Option (AAAGamesWorkload × Nat)
  | 0, _, g, pos => some (g, pos)
  | n + 1, i, g, pos =>
    match generateAssetAddress g i rnd pos with
    | none => none
    | some (a, pos1) => newLoop rnd n (i + 1) { g with assets := g.assets ++ [a] } pos1

/-- Constructor `AAAGamesWorkload(numAssets, reuseProbability, segmentSizes)`; `rnd` is
the stream `rand()` yields after the `srand` call, read from position 0.
`assets.reserve(numAssets)` throws for a negative count. -/
def new (numAssets : Int) (reuseProbability : ℚ) (segmentSizes : List Nat) (rnd : Nat → Nat) :
    Option (AAAGamesWorkload × Nat) :=
  if numAssets < 0 then none
  else
    newLoop rnd numAssets.toNat 0
      { numAssets := numAssets
        reuseProbability := reuseProbability
        segmentSizes := segmentSizes
        assets := []
        addresses := [] } 0

/-- Stream position after `m` successive calls of `generateFullHexAddress` that start at
position `pos`. -/
def advance (g : AAAGamesWorkload) (rnd : Nat → Nat) : Nat → Nat → Option Nat
  | 0, pos => some pos
  | m + 1, pos =>
    match generateFullHexAddress g rnd pos with
    | none => none
    | some (_, pos1) => advance g rnd m pos1

/-- The pair `(segmentIndex, offset)` that `generateAssetAddress` draws when its two calls
of `rand()` return `r1` and `r2`. -/
def drawnPair (segmentSizes : List Nat) (r1 r2 : Nat) : Nat × Nat :=
  (r1 % segmentSizes.length, r2 % segmentSizes.getD (r1 % segmentSizes.length) 0)

/-- The number `segmentIndex * segmentSizes[segmentIndex] + offset` that
`generateAssetAddress` formats when its two calls of `rand()` return `r1` and `r2`. -/
def mintedValue (segmentSizes : List Nat) (r1 r2 : Nat) : Nat :=
  ((r1 % segmentSizes.length) * segmentSizes.getD (r1 % segmentSizes.length) 0
      + r2 % segmentSizes.getD (r1 % segmentSizes.length) 0) % U64

end AAAGamesWorkload

/-! ## `class StatelessMicroserviceWorkload` -/

/-- Data members of `StatelessMicroserviceWorkload`. -/
structure StatelessMicroserviceWorkload where
  numServices : Int
  dependencyProbability : ℚ
  segmentSize : Nat
  currentSegment : Int
  services : List String
  deriving DecidableEq

namespace StatelessMicroserviceWorkload

/-- Member `generateSequentialAddress`: formats
`currentSegment * segmentSize + services.size()`. -/
def generateSequentialAddress (g : StatelessMicroserviceWorkload) : String :=
  formatAddress ((toU64 g.currentSegment * g.segmentSize + g.services.length) % U64)

/-- The `for (int i = 0; i < numServices; ++i)` loop of `generateAddresses` with `n`
iterations left. -/
def generateAddressesLoop :
    Nat → StatelessMicroserviceWorkload → StatelessMicroserviceWorkload
  | 0, g => g
  | n + 1, g =>
    generateAddressesLoop n { g with services := g.services ++ [generateSequentialAddress g] }

/-- Member `generateAddresses`. -/
def generateAddresses (g : StatelessMicroserviceWorkload) : StatelessMicroserviceWorkload :=
  generateAddressesLoop g.numServices.toNat g

/-- Constructor `StatelessMicroserviceWorkload(numServices, dependencyProbability,
segmentSize)`; `services.reserve(numServices)` throws for a negative count.  The `srand`
call touches no member and the class never calls `rand()`. -/
def new (numServices : Int) (dependencyProbability : ℚ) (segmentSize : Nat) :
    Option StatelessMicroserviceWorkload :=
  if numServices < 0 then none
  else
    some (generateAddresses
      { numServices := numServices
        dependencyProbability := dependencyProbability
        segmentSize := segmentSize
        currentSegment := 0
        services := [] })

/-- Member `generateServiceAddress(int index)`: formats
`currentSegment * segmentSize + index` in `uint64_t` arithmetic. -/
def generateServiceAddress (g : StatelessMicroserviceWorkload) (index : Int) : String :=
  formatAddress ((toU64 g.currentSegment * g.segmentSize + toU64 index) % U64)

/-- Member `getNextSequentialAddress`: pre-increment `currentSegment`, reset it to 0 when
it has reached `numServices`, then format with the index
`services.size() - numServices + currentSegment` (computed in `size_t`, passed as `int`). -/
def getNextSequentialAddress (g : StatelessMicroserviceWorkload) :
    String × StatelessMicroserviceWorkload :=
  let c := g.currentSegment + 1
  let g1 := { g with currentSegment := if c ≥ g.numServices then 0 else c }
  let index :=
    toInt32 ((g1.services.length + (U64 - toU64 g1.numServices) + toU64 g1.currentSegment) % U64)
  (generateServiceAddress g1 index, g1)

/-- The `for (int i = 0; i < size; ++i)` loop of `generateWorkload` with `n` iterations
left; `out` is the local vector `addresses`. -/
def generateWorkloadLoop :
    Nat → List String → StatelessMicroserviceWorkload →
      List String × StatelessMicroserviceWorkload
  | 0, out, g => (out, g)
  | n + 1, out, g =>
    let r := getNextSequentialAddress g
    generateWorkloadLoop n (out ++ [r.1]) r.2

/-- Member `generateWorkload(int size)`; the loop body runs `max size 0` times. -/
def generateWorkload (g : StatelessMicroserviceWorkload) (size : Int) :
    List String × StatelessMicroserviceWorkload :=
  generateWorkloadLoop size.toNat [] g

/-- State of the object after `m` successive calls of `getNextSequentialAddress`. -/
def advance : Nat → StatelessMicroserviceWorkload → StatelessMicroserviceWorkload
  | 0, g => g
  | m + 1, g => advance m (getNextSequentialAddress g).2

end StatelessMicroserviceWorkload

end Workloads

namespace Workloads

/-! ## Lemmas on the formatting -/

theorem hexDigitsAux_fuel (v : Nat) :
    ∀ (f1 f2 : Nat) (acc : List Char), v ≤ f1 → v ≤ f2 →
      hexDigitsAux f1 v acc = hexDigitsAux f2 v [] ++ acc := by
  induction v using Nat.strong_induction_on with
  | _ v ih =>
    intro f1 f2 acc h1 h2
    by_cases hv : v < 16
    · cases f1 with
      | zero =>
        have hv0 : v = 0 := by omega
        subst hv0
        cases f2 <;> simp [hexDigitsAux]
      | succ f1 =>
        cases f2 with
        | zero =>
          have hv0 : v = 0 := by omega
          subst hv0
          simp [hexDigitsAux]
        | succ f2 => simp [hexDigitsAux, hv]
    · cases f1 with
      | zero => omega
      | succ f1 =>
        cases f2 with
        | zero => omega
        | succ f2 =>
          have hlt : v / 16 < v := Nat.div_lt_self (by omega) (by decide)
          have hd : v / 16 ≤ v - 1 := by omega
          simp only [hexDigitsAux, if_neg hv]
          rw [ih (v / 16) hlt f1 f2 _ (by omega) (by omega),
            ih (v / 16) hlt f2 f2 [hexChar (v % 16)] (by omega) (by omega)]
          simp

theorem hexDigits_of_lt {v : Nat} (hv : v < 16) : hexDigits v = [hexChar v] := by
  unfold hexDigits
  cases v with
  | zero => simp [hexDigitsAux]
  | succ n => simp [hexDigitsAux, hv]

theorem hexDigits_of_ge {v : Nat} (hv : 16 ≤ v) :
    hexDigits v = hexDigits (v / 16) ++ [hexChar (v % 16)] := by
  have hlt : v / 16 < v := Nat.div_lt_self (by omega) (by decide)
  unfold hexDigits
  cases v with
  | zero => omega
  | succ n =>
    have hn : ¬ n + 1 < 16 := by omega
    simp only [hexDigitsAux, if_neg hn]
    exact hexDigitsAux_fuel _ n _ _ (by omega) (le_refl _)

theorem hexCharValue_hexChar {d : Nat} (hd : d < 16) : hexCharValue (hexChar d) = d := by
  interval_cases d <;> decide

theorem isLowerHex_hexChar {d : Nat} (hd : d < 16) : isLowerHex (hexChar d) = true := by
  interval_cases d <;> decide

theorem hexValue_append_singleton (l : List Char) (c : Char) :
    hexValue (l ++ [c]) = 16 * hexValue l + hexCharValue c := by
  simp [hexValue, List.foldl_append]

theorem hexValue_hexDigits (v : Nat) : hexValue (hexDigits v) = v := by
  induction v using Nat.strong_induction_on with
  | _ v ih =>
    by_cases hv : v < 16
    · rw [hexDigits_of_lt hv]
      simp [hexValue, hexCharValue_hexChar hv]
    · have hlt : v / 16 < v := Nat.div_lt_self (by omega) (by decide)
      rw [hexDigits_of_ge (by omega), hexValue_append_singleton, ih _ hlt,
        hexCharValue_hexChar (Nat.mod_lt _ (by decide))]
      omega

theorem isLowerHex_hexDigits (v : Nat) : ∀ c ∈ hexDigits v, isLowerHex c = true := by
  induction v using Nat.strong_induction_on with
  | _ v ih =>
    by_cases hv : v < 16
    · rw [hexDigits_of_lt hv]
      intro c hc
      simp at hc
      subst hc
      exact isLowerHex_hexChar hv
    · have hlt : v / 16 < v := Nat.div_lt_self (by omega) (by decide)
      rw [hexDigits_of_ge (by omega)]
      intro c hc
      rcases List.mem_append.1 hc with h | h
      · exact ih _ hlt c h
      · simp at h
        subst h
        exact isLowerHex_hexChar (Nat.mod_lt _ (by decide))

theorem hexDigits_length_le_iff (v : Nat) :
    ∀ k : Nat, 1 ≤ k → ((hexDigits v).length ≤ k ↔ v < 16 ^ k) := by
  induction v using Nat.strong_induction_on with
  | _ v ih =>
    intro k hk
    by_cases hv : v < 16
    · rw [hexDigits_of_lt hv]
      have h16 : (16 : Nat) ^ 1 ≤ 16 ^ k := Nat.pow_le_pow_right (by decide) hk
      simp only [List.length_singleton]
      constructor
      · intro _; omega
      · intro _; exact hk
    · have hlt : v / 16 < v := Nat.div_lt_self (by omega) (by decide)
      rw [hexDigits_of_ge (by omega)]
      simp only [List.length_append, List.length_singleton]
      obtain ⟨j, rfl⟩ : ∃ j, k = j + 1 := ⟨k - 1, by omega⟩
      by_cases hj : j = 0
      · subst hj
        have hpos : 1 ≤ (hexDigits (v / 16)).length := by
          by_contra hc
          have h0 : (hexDigits (v / 16)).length ≤ 1 := by omega
          have := (ih _ hlt 1 (le_refl _)).1 h0
          have hnil : hexDigits (v / 16) = [] := List.length_eq_zero.1 (by omega)
          have hval := hexValue_hexDigits (v / 16)
          rw [hnil] at hval
          simp [hexValue] at hval
          omega
        constructor
        · intro h; omega
        · intro h; simp at h; omega
      · have := ih _ hlt j (by omega)
        rw [Nat.add_le_add_iff_right, this, pow_succ, Nat.div_lt_iff_lt_mul (by decide)]

theorem hexDigits_eq_digits {v : Nat} (hv : 0 < v) :
    hexDigits v = (Nat.digits 16 v).reverse.map hexChar := by
  induction v using Nat.strong_induction_on with
  | _ v ih =>
    by_cases h16 : v < 16
    · rw [hexDigits_of_lt h16, Nat.digits_of_lt 16 v (by omega) h16]
      simp
    · have hlt : v / 16 < v := Nat.div_lt_self (by omega) (by decide)
      rw [hexDigits_of_ge (by omega), Nat.digits_def' (by decide) hv,
        ih _ hlt (Nat.div_pos (by omega) (by decide))]
      simp

theorem hexValue_replicate_zero_append (n : Nat) (l : List Char) :
    hexValue (List.replicate n '0' ++ l) = hexValue l := by
  unfold hexValue
  rw [List.foldl_append]
  have h0 : List.foldl (fun n c => 16 * n + hexCharValue c) 0 (List.replicate n '0') = 0 := by
    induction n with
    | zero => rfl
    | succ n ih =>
      rw [List.replicate_succ', List.foldl_append, ih]
      decide
  rw [h0]

/-- The characters of a formatted address. -/
theorem formatAddress_data (v : Nat) :
    (formatAddress v).data = '0' :: 'x' :: List.leftpad 8 '0' (hexDigits v) := rfl

theorem formatAddress_injective {v w : Nat} (h : formatAddress v = formatAddress w) : v = w := by
  have hd := congrArg String.data h
  rw [formatAddress_data, formatAddress_data] at hd
  have hl : List.leftpad 8 '0' (hexDigits v) = List.leftpad 8 '0' (hexDigits w) := by
    simpa using hd
  have hv := congrArg hexValue hl
  simp only [List.leftpad] at hv
  rwa [hexValue_replicate_zero_append, hexValue_replicate_zero_append, hexValue_hexDigits,
    hexValue_hexDigits] at hv

end Workloads

namespace Workloads

namespace MachineLearningWorkload

/-! ## Lemmas on `MachineLearningWorkload` -/

theorem ml_generateWorkloadLoop_acc (n : Nat) :
    ∀ (out : List String) (g : MachineLearningWorkload),
      generateWorkloadLoop n out g
        = (out ++ (generateWorkloadLoop n [] g).1, (generateWorkloadLoop n [] g).2) := by
  induction n with
  | zero => intro out g; simp [generateWorkloadLoop]
  | succ n ih =>
    intro out g
    simp only [generateWorkloadLoop]
    rw [ih (out ++ _), ih ([] ++ _)]
    simp

theorem ml_generateWorkloadLoop_succ (n : Nat) (g : MachineLearningWorkload) :
    generateWorkloadLoop (n + 1) [] g
      = ((getNextSequentialAddress g).1 ::
            (generateWorkloadLoop n [] (getNextSequentialAddress g).2).1,
          (generateWorkloadLoop n [] (getNextSequentialAddress g).2).2) := by
  simp only [generateWorkloadLoop]
  rw [ml_generateWorkloadLoop_acc]
  simp

theorem ml_advance_succ (m : Nat) (g : MachineLearningWorkload) :
    advance (m + 1) g = advance m (getNextSequentialAddress g).2 := rfl

theorem ml_advance_succ_outer (m : Nat) (g : MachineLearningWorkload) :
    advance (m + 1) g = (getNextSequentialAddress (advance m g)).2 := by
  induction m generalizing g with
  | zero => rfl
  | succ m ih => rw [ml_advance_succ, ih, ← ml_advance_succ]

theorem ml_generateWorkloadLoop_length (n : Nat) (g : MachineLearningWorkload) :
    (generateWorkloadLoop n [] g).1.length = n := by
  induction n generalizing g with
  | zero => rfl
  | succ n ih => rw [ml_generateWorkloadLoop_succ]; simp [ih]

theorem ml_generateWorkloadLoop_snd (n : Nat) (g : MachineLearningWorkload) :
    (generateWorkloadLoop n [] g).2 = advance n g := by
  induction n generalizing g with
  | zero => rfl
  | succ n ih => rw [ml_generateWorkloadLoop_succ, ml_advance_succ]; exact ih _

theorem ml_generateWorkloadLoop_get (n : Nat) (g : MachineLearningWorkload) :
    ∀ i, i < n →
      (generateWorkloadLoop n [] g).1.get? i
        = some (getNextSequentialAddress (advance i g)).1 := by
  induction n generalizing g with
  | zero => intro i hi; omega
  | succ n ih =>
    intro i hi
    rw [ml_generateWorkloadLoop_succ]
    cases i with
    | zero => rfl
    | succ i =>
      rw [ml_advance_succ]
      simpa using ih (getNextSequentialAddress g).2 i (by omega)

end MachineLearningWorkload

end Workloads

namespace Workloads

namespace MachineLearningWorkload

theorem ml_generateAddresses_fields {fuel : Nat} {g r : MachineLearningWorkload}
    (h : generateAddresses fuel g = some r) :
    r.currentAddress = g.currentAddress ∧
      r.virtualAddressSpaceSize = g.virtualAddressSpaceSize ∧ r.segmentSize = g.segmentSize := by
  unfold generateAddresses at h
  cases hl : generateAddressesLoop g fuel ((4 * g.segmentSize) % U64) g.addresses with
  | none => rw [hl] at h; simp at h
  | some l =>
    rw [hl] at h
    simp only [Option.map_some', Option.some.injEq] at h
    subst h
    exact ⟨rfl, rfl, rfl⟩

theorem ml_new_fields {fuel N S : Nat} {g : MachineLearningWorkload}
    (h : new fuel N S = some g) :
    g.currentAddress = (4 * S) % U64 ∧ g.virtualAddressSpaceSize = N ∧ g.segmentSize = S :=
  ml_generateAddresses_fields h

theorem ml_generateAddressesLoop_terminates (g : MachineLearningWorkload)
    (hNS : g.virtualAddressSpaceSize + g.segmentSize ≤ U64) :
    ∀ (fuel addr : Nat) (out : List String),
      g.virtualAddressSpaceSize ≤ addr + fuel * g.segmentSize →
        ∃ l, generateAddressesLoop g (fuel + 1) addr out = some l := by
  intro fuel
  induction fuel with
  | zero =>
    intro addr out h
    have : ¬ addr < g.virtualAddressSpaceSize := by omega
    exact ⟨out, by simp [generateAddressesLoop, this]⟩
  | succ fuel ih =>
    intro addr out h
    by_cases hlt : addr < g.virtualAddressSpaceSize
    · have hmod : (addr + g.segmentSize) % U64 = addr + g.segmentSize :=
        Nat.mod_eq_of_lt (by omega)
      have hle : g.virtualAddressSpaceSize ≤ addr + g.segmentSize + fuel * g.segmentSize := by
        rw [Nat.succ_mul] at h; omega
      obtain ⟨l, hl⟩ := ih (addr + g.segmentSize) (out ++ [formatAddress addr]) hle
      refine ⟨l, ?_⟩
      rw [generateAddressesLoop, if_pos hlt, hmod]
      exact hl
    · exact ⟨out, by rw [generateAddressesLoop, if_neg hlt]⟩

theorem ml_new_terminates {N S : Nat} (hS : 0 < S) (hNS : N + S ≤ U64) :
    ∃ fuel g, new fuel N S = some g := by
  obtain ⟨l, hl⟩ := ml_generateAddressesLoop_terminates
    { currentAddress := (4 * S) % U64, virtualAddressSpaceSize := N, segmentSize := S,
      addresses := [] } hNS N ((4 * S) % U64) []
    (by
      show N ≤ (4 * S) % U64 + N * S
      have : N * 1 ≤ N * S := Nat.mul_le_mul_left N hS
      omega)
  exact ⟨N + 1, _, by simp only [new, generateAddresses]; rw [hl]; rfl⟩

theorem ml_advance_virtualAddressSpaceSize (m : Nat) (g : MachineLearningWorkload) :
    (advance m g).virtualAddressSpaceSize = g.virtualAddressSpaceSize := by
  induction m generalizing g with
  | zero => rfl
  | succ m ih => rw [ml_advance_succ, ih]; rfl

theorem ml_advance_segmentSize (m : Nat) (g : MachineLearningWorkload) :
    (advance m g).segmentSize = g.segmentSize := by
  induction m generalizing g with
  | zero => rfl
  | succ m ih => rw [ml_advance_succ, ih]; rfl

/-- While the walk has not reached the end of the space, the counter after `j` calls is
`4 * S + j * S` (reduced modulo `2 ^ 64` for the value stored after the last call). -/
theorem ml_advance_currentAddress {g : MachineLearningWorkload} {N S : Nat}
    (hc : g.currentAddress = (4 * S) % U64) (hN : g.virtualAddressSpaceSize = N)
    (hS : g.segmentSize = S) (hNU : N ≤ U64) :
    ∀ j, (j = 0 ∨ 4 * S + (j - 1) * S < N) →
      (advance j g).currentAddress = (4 * S + j * S) % U64 := by
  intro j
  induction j with
  | zero => intro _; simpa using hc
  | succ j ih =>
    intro h
    have hj : 4 * S + j * S < N := by
      rcases h with h | h
      · omega
      · simpa using h
    have hprev : j = 0 ∨ 4 * S + (j - 1) * S < N := by
      rcases Nat.eq_zero_or_pos j with h0 | hpos
      · exact Or.inl h0
      · right
        have : (j - 1) * S ≤ j * S := Nat.mul_le_mul_right S (by omega)
        omega
    have hcur := ih hprev
    rw [Nat.mod_eq_of_lt (by omega)] at hcur
    rw [ml_advance_succ_outer]
    simp only [getNextSequentialAddress, ml_advance_virtualAddressSpaceSize,
      ml_advance_segmentSize, hN, hS, hcur]
    have hsucc : (j + 1) * S = j * S + S := Nat.succ_mul j S
    rw [if_neg (by omega), hsucc]
    congr 1
    omega

/-- As long as `4 * S + j * S` is below the space size, call `j + 1` returns it. -/
theorem ml_getNextSequentialAddress_advance {g : MachineLearningWorkload} {N S : Nat}
    (hc : g.currentAddress = (4 * S) % U64) (hN : g.virtualAddressSpaceSize = N)
    (hS : g.segmentSize = S) (hNU : N ≤ U64) (j : Nat) (hj : 4 * S + j * S < N) :
    (getNextSequentialAddress (advance j g)).1 = formatAddress (4 * S + j * S) := by
  have hprev : j = 0 ∨ 4 * S + (j - 1) * S < N := by
    rcases Nat.eq_zero_or_pos j with h0 | hpos
    · exact Or.inl h0
    · right
      have : (j - 1) * S ≤ j * S := Nat.mul_le_mul_right S (by omega)
      omega
  have hcur := ml_advance_currentAddress hc hN hS hNU j hprev
  rw [Nat.mod_eq_of_lt (by omega)] at hcur
  simp only [getNextSequentialAddress, ml_advance_virtualAddressSpaceSize, hN, hcur]
  rw [if_neg (by omega)]

/-- Once `4 * S + m * S` has reached the space size (and every earlier point was below
it, without wrap-around of the counter), call `m + 1` returns `4 * S`. -/
theorem ml_getNextSequentialAddress_advance_wrap {g : MachineLearningWorkload} {N S : Nat}
    (hc : g.currentAddress = (4 * S) % U64) (hN : g.virtualAddressSpaceSize = N)
    (hS : g.segmentSize = S) (hNU : N ≤ U64) (m : Nat)
    (hm : m = 0 ∨ 4 * S + (m - 1) * S < N) (hge : N ≤ 4 * S + m * S)
    (hU : 4 * S + m * S < U64) :
    (getNextSequentialAddress (advance m g)).1 = formatAddress (4 * S) := by
  have hcur := ml_advance_currentAddress hc hN hS hNU m hm
  rw [Nat.mod_eq_of_lt hU] at hcur
  have h4 : (4 * S) % U64 = 4 * S := Nat.mod_eq_of_lt (by omega)
  simp only [getNextSequentialAddress, ml_advance_virtualAddressSpaceSize, ml_advance_segmentSize,
    hN, hS, hcur]
  rw [if_pos (by omega), h4]

end MachineLearningWorkload

end Workloads

namespace Workloads

open MachineLearningWorkload in
/-- C1: the k-th string (1-indexed) that `generateWorkload n`, `n ≥ k`, returns on a freshly
constructed `MachineLearningWorkload(N, S)` is the formatted address `4 * S + (k - 1) * S`
whenever that value is below `N`; the constructor completes when `N + S ≤ 2 ^ 64`; and
`MachineLearningWorkload(2 ^ 32, 0x1000).generateWorkload(5)` returns the five addresses
`0x00004000` ... `0x00008000`. -/
theorem ml_kth_address (S N k : Nat) (n : Int) (hS : 0 < S) (hk : 1 ≤ k)
    (hkn : (k : Int) ≤ n) (hlt : 4 * S + (k - 1) * S < N) (hN : N < 2 ^ 64) :
    (∀ fuel g, MachineLearningWorkload.new fuel N S = some g →
        (g.generateWorkload n).1.get? (k - 1)
          = some (formatAddress (4 * S + (k - 1) * S))) ∧
    (N + S ≤ 2 ^ 64 → ∃ fuel g, MachineLearningWorkload.new fuel N S = some g) ∧
    (∀ fuel g, MachineLearningWorkload.new fuel (2 ^ 32) 0x1000 = some g →
        (g.generateWorkload 5).1
          = ["0x00004000", "0x00005000", "0x00006000", "0x00007000", "0x00008000"]) ∧
    (∃ fuel g, MachineLearningWorkload.new fuel (2 ^ 32) 0x1000 = some g) := by
  refine ⟨?_, ?_, ?_, ?_⟩
  · intro fuel g hg
    obtain ⟨hc, hgN, hgS⟩ := ml_new_fields hg
    have hNU : N ≤ U64 := by unfold U64; omega
    have hi : k - 1 < n.toNat := by omega
    unfold generateWorkload
    rw [ml_generateWorkloadLoop_get _ _ _ hi,
      ml_getNextSequentialAddress_advance hc hgN hgS hNU (k - 1) hlt]
  · intro h
    exact ml_new_terminates hS (by unfold U64; exact h)
  · intro fuel g hg
    obtain ⟨hc, hgN, hgS⟩ := ml_new_fields hg
    have hNU : 2 ^ 32 ≤ U64 := by decide
    have h : ∀ i, i < 5 →
        (getNextSequentialAddress (advance i g)).1 = formatAddress (4 * 0x1000 + i * 0x1000) :=
      fun i hi => ml_getNextSequentialAddress_advance hc hgN hgS hNU i (by omega)
    show (generateWorkloadLoop 5 [] g).1 = _
    apply List.ext_get?
    intro i
    by_cases hi : i < 5
    · rw [ml_generateWorkloadLoop_get _ _ _ hi, h i hi]
      interval_cases i <;> decide
    · rw [List.get?_eq_none.2 (by rw [ml_generateWorkloadLoop_length]; omega),
        List.get?_eq_none.2 (by simp; omega)]
  · exact ml_new_terminates (by decide) (by decide)

/-- Witness of `ml_kth_address`: `MachineLearningWorkload(0x6001, 0x1000)`, second string
of `generateWorkload(3)`. -/
theorem ml_kth_address_witness :
    MachineLearningWorkload.new 4 0x6001 0x1000
        = some ⟨0x4000, 0x6001, 0x1000, ["0x00004000", "0x00005000", "0x00006000"]⟩ ∧
      ((⟨0x4000, 0x6001, 0x1000, ["0x00004000", "0x00005000", "0x00006000"]⟩ :
          MachineLearningWorkload).generateWorkload 3).1.get? (2 - 1)
        = some (formatAddress (4 * 0x1000 + (2 - 1) * 0x1000)) :=
  ⟨by decide,
    (ml_kth_address 0x1000 0x6001 2 3 (by decide) (by decide) (by decide) (by decide)
      (by decide)).1 4 _ (by decide)⟩

open MachineLearningWorkload in
/-- C2 as stated fails: with `S = 2`, `N = 11` the quotient `floor((N - 4S) / S)` is 1, and
after one emitted address the next call returns `0x0000000a` (the value 10), not the
address `4 * S = 8`. -/
theorem ml_wrap_floor_refuted :
    (0 < 2 ∧ 4 * 2 < 11 ∧ 11 + 2 ≤ 2 ^ 64) ∧
    (MachineLearningWorkload.new 3 11 2).map
        (fun g => (getNextSequentialAddress (advance ((11 - 4 * 2) / 2) g)).1)
      = some "0x0000000a" ∧
    "0x0000000a" ≠ formatAddress (4 * 2) := by
  decide

open MachineLearningWorkload in
/-- C2 (amended): for `S > 0`, `4 * S < N` and `N + S ≤ 2 ^ 64` the constructor completes,
and after a freshly constructed generator has emitted `ceil((N - 4S) / S)` addresses the
next call returns the address `4 * S` again, while none of the calls in between does; the
count is `floor((N - 4S) / S)` when `S` divides `N - 4 * S`. -/
theorem ml_wrap_ceil (S N : Nat) (hS : 0 < S) (hlt : 4 * S < N) (hNS : N + S ≤ 2 ^ 64) :
    (∃ fuel g, MachineLearningWorkload.new fuel N S = some g) ∧
    (∀ fuel g, MachineLearningWorkload.new fuel N S = some g →
      (getNextSequentialAddress (advance ((N - 4 * S + (S - 1)) / S) g)).1
          = formatAddress (4 * S) ∧
      ∀ j, 1 ≤ j → j < (N - 4 * S + (S - 1)) / S →
        (getNextSequentialAddress (advance j g)).1 ≠ formatAddress (4 * S)) ∧
    (S ∣ N - 4 * S → (N - 4 * S + (S - 1)) / S = (N - 4 * S) / S) := by
  have hNU : N ≤ U64 := by unfold U64; omega
  have hdm := Nat.div_add_mod (N - 4 * S + (S - 1)) S
  have hmod := Nat.mod_lt (N - 4 * S + (S - 1)) hS
  generalize hq : (N - 4 * S + (S - 1)) / S = q at hdm
  generalize (N - 4 * S + (S - 1)) % S = r at hdm hmod
  have hqS : q * S = S * q := Nat.mul_comm q S
  refine ⟨ml_new_terminates hS (by unfold U64; exact hNS), ?_, ?_⟩
  · intro fuel g hg
    obtain ⟨hc, hgN, hgS⟩ := ml_new_fields hg
    constructor
    · have hq1 : 1 ≤ q := by
        rcases Nat.eq_zero_or_pos q with h0 | hpos
        · subst h0; omega
        · exact hpos
      have hsub : (q - 1) * S + S = q * S := by
        rw [← Nat.succ_mul]; congr 1; omega
      apply ml_getNextSequentialAddress_advance_wrap hc hgN hgS hNU q
      · right; omega
      · omega
      · unfold U64; omega
    · intro j hj1 hjq
      have hle : (j + 1) * S ≤ q * S := Nat.mul_le_mul_right S hjq
      have hsucc : (j + 1) * S = j * S + S := Nat.succ_mul j S
      have hjN : 4 * S + j * S < N := by omega
      rw [ml_getNextSequentialAddress_advance hc hgN hgS hNU j hjN]
      intro heq
      have := formatAddress_injective heq
      have hpos : 1 * S ≤ j * S := Nat.mul_le_mul_right S hj1
      omega
  · intro hdvd
    obtain ⟨c, hc⟩ := hdvd
    rw [hc, Nat.mul_div_cancel_left c hS]
    rw [hc] at hdm
    rcases Nat.lt_trichotomy q c with h | h | h
    · have h1 : S * (q + 1) ≤ S * c := Nat.mul_le_mul_left S h
      rw [Nat.mul_succ] at h1
      omega
    · exact h
    · have h1 : S * (c + 1) ≤ S * q := Nat.mul_le_mul_left S h
      rw [Nat.mul_succ] at h1
      omega

open MachineLearningWorkload in
/-- Witness of `ml_wrap_ceil`: `MachineLearningWorkload(11, 2)` returns the address 8 again
on the call after two emitted addresses. -/
theorem ml_wrap_ceil_witness :
    MachineLearningWorkload.new 3 11 2 = some ⟨8, 11, 2, ["0x00000008", "0x0000000a"]⟩ ∧
      (getNextSequentialAddress (advance ((11 - 4 * 2 + (2 - 1)) / 2)
          (⟨8, 11, 2, ["0x00000008", "0x0000000a"]⟩ : MachineLearningWorkload))).1
        = formatAddress (4 * 2) :=
  ⟨by decide, ((ml_wrap_ceil 2 11 (by decide) (by decide) (by decide)).2.1 3 _ (by decide)).1⟩

end Workloads

namespace Workloads

/-! ## Lemmas on the integer conversions -/

theorem toU64_of_nonneg {i : Int} (h0 : 0 ≤ i) (h1 : i < 2 ^ 64) : toU64 i = i.toNat := by
  unfold toU64
  rw [Int.emod_eq_of_lt h0 h1]

theorem toU64_natCast {n : Nat} (h : n < 2 ^ 64) : toU64 (n : Int) = n := by
  rw [toU64_of_nonneg (by omega) (by omega)]
  simp

theorem toInt32_of_lt {n : Nat} (h : n < 2 ^ 31) : toInt32 n = (n : Int) := by
  unfold toInt32
  have hm : n % 2 ^ 32 = n := Nat.mod_eq_of_lt (by omega)
  rw [hm, if_pos h]

namespace StatelessMicroserviceWorkload

/-! ## Lemmas on `StatelessMicroserviceWorkload` -/

theorem sm_generateWorkloadLoop_acc (n : Nat) :
    ∀ (out : List String) (g : StatelessMicroserviceWorkload),
      generateWorkloadLoop n out g
        = (out ++ (generateWorkloadLoop n [] g).1, (generateWorkloadLoop n [] g).2) := by
  induction n with
  | zero => intro out g; simp [generateWorkloadLoop]
  | succ n ih =>
    intro out g
    simp only [generateWorkloadLoop]
    rw [ih (out ++ _), ih ([] ++ _)]
    simp

theorem sm_generateWorkloadLoop_succ (n : Nat) (g : StatelessMicroserviceWorkload) :
    generateWorkloadLoop (n + 1) [] g
      = ((getNextSequentialAddress g).1 ::
            (generateWorkloadLoop n [] (getNextSequentialAddress g).2).1,
          (generateWorkloadLoop n [] (getNextSequentialAddress g).2).2) := by
  simp only [generateWorkloadLoop]
  rw [sm_generateWorkloadLoop_acc]
  simp

theorem sm_advance_succ (m : Nat) (g : StatelessMicroserviceWorkload) :
    advance (m + 1) g = advance m (getNextSequentialAddress g).2 := rfl

theorem sm_advance_succ_outer (m : Nat) (g : StatelessMicroserviceWorkload) :
    advance (m + 1) g = (getNextSequentialAddress (advance m g)).2 := by
  induction m generalizing g with
  | zero => rfl
  | succ m ih => rw [sm_advance_succ, ih, ← sm_advance_succ]

theorem sm_generateWorkloadLoop_length (n : Nat) (g : StatelessMicroserviceWorkload) :
    (generateWorkloadLoop n [] g).1.length = n := by
  induction n generalizing g with
  | zero => rfl
  | succ n ih => rw [sm_generateWorkloadLoop_succ]; simp [ih]

theorem sm_generateWorkloadLoop_snd (n : Nat) (g : StatelessMicroserviceWorkload) :
    (generateWorkloadLoop n [] g).2 = advance n g := by
  induction n generalizing g with
  | zero => rfl
  | succ n ih => rw [sm_generateWorkloadLoop_succ, sm_advance_succ]; exact ih _

theorem sm_generateWorkloadLoop_get (n : Nat) (g : StatelessMicroserviceWorkload) :
    ∀ i, i < n →
      (generateWorkloadLoop n [] g).1.get? i
        = some (getNextSequentialAddress (advance i g)).1 := by
  induction n generalizing g with
  | zero => intro i hi; omega
  | succ n ih =>
    intro i hi
    rw [sm_generateWorkloadLoop_succ]
    cases i with
    | zero => rfl
    | succ i =>
      rw [sm_advance_succ]
      simpa using ih (getNextSequentialAddress g).2 i (by omega)

/-- The precompute loop appends `n` strings and touches no other member. -/
theorem sm_generateAddressesLoop_fields (n : Nat) :
    ∀ g : StatelessMicroserviceWorkload,
      (generateAddressesLoop n g).numServices = g.numServices ∧
      (generateAddressesLoop n g).dependencyProbability = g.dependencyProbability ∧
      (generateAddressesLoop n g).segmentSize = g.segmentSize ∧
      (generateAddressesLoop n g).currentSegment = g.currentSegment ∧
      (generateAddressesLoop n g).services.length = g.services.length + n := by
  induction n with
  | zero => intro g; exact ⟨rfl, rfl, rfl, rfl, rfl⟩
  | succ n ih =>
    intro g
    obtain ⟨h1, h2, h3, h4, h5⟩ :=
      ih { g with services := g.services ++ [generateSequentialAddress g] }
    refine ⟨h1, h2, h3, h4, ?_⟩
    rw [generateAddressesLoop, h5]
    simp
    omega

theorem sm_new_fields {C : Int} {dp : ℚ} {S : Nat} {g : StatelessMicroserviceWorkload}
    (h : new C dp S = some g) :
    0 ≤ C ∧ g.numServices = C ∧ g.dependencyProbability = dp ∧ g.segmentSize = S ∧
      g.currentSegment = 0 ∧ g.services.length = C.toNat := by
  unfold new at h
  by_cases hC : C < 0
  · rw [if_pos hC] at h; simp at h
  · rw [if_neg hC] at h
    simp only [Option.some.injEq] at h
    subst h
    obtain ⟨h1, h2, h3, h4, h5⟩ := sm_generateAddressesLoop_fields C.toNat
      { numServices := C, dependencyProbability := dp, segmentSize := S, currentSegment := 0,
        services := [] }
    exact ⟨by omega, h1, h2, h3, h4, by simpa [generateAddresses] using h5⟩

theorem sm_new_isSome {C : Int} (dp : ℚ) (S : Nat) (hC : 0 ≤ C) :
    ∃ g, new C dp S = some g := by
  unfold new
  rw [if_neg (by omega)]
  exact ⟨_, rfl⟩

/-- A call of `getNextSequentialAddress` writes `currentSegment` only. -/
theorem sm_getNextSequentialAddress_snd (g : StatelessMicroserviceWorkload) :
    (getNextSequentialAddress g).2
      = { g with currentSegment :=
            if g.currentSegment + 1 ≥ g.numServices then 0 else g.currentSegment + 1 } := rfl

theorem sm_advance_fields (m : Nat) :
    ∀ g : StatelessMicroserviceWorkload,
      (advance m g).numServices = g.numServices ∧
      (advance m g).dependencyProbability = g.dependencyProbability ∧
      (advance m g).segmentSize = g.segmentSize ∧
      (advance m g).services = g.services := by
  induction m with
  | zero => intro g; exact ⟨rfl, rfl, rfl, rfl⟩
  | succ m ih =>
    intro g
    rw [sm_advance_succ]
    obtain ⟨h1, h2, h3, h4⟩ := ih (getNextSequentialAddress g).2
    exact ⟨h1, h2, h3, h4⟩

/-- After `k` calls on an object whose `currentSegment` was 0, `currentSegment` is
`k mod numServices`. -/
theorem sm_advance_currentSegment {g : StatelessMicroserviceWorkload} {C : Int}
    (hC : 1 ≤ C) (hn : g.numServices = C) (h0 : g.currentSegment = 0) :
    ∀ k : Nat, (advance k g).currentSegment = (k : Int) % C := by
  intro k
  induction k with
  | zero => simpa using h0
  | succ k ih =>
    rw [sm_advance_succ_outer, sm_getNextSequentialAddress_snd]
    simp only [(sm_advance_fields k g).1, hn, ih]
    have hlo : 0 ≤ (k : Int) % C := Int.emod_nonneg _ (by omega)
    have hhi : (k : Int) % C < C := Int.emod_lt_of_pos _ (by omega)
    have hstep : ((k + 1 : Nat) : Int) % C = ((k : Int) % C + 1) % C := by
      rw [Int.emod_add_emod]; push_cast; rfl
    rw [hstep]
    by_cases hge : (k : Int) % C + 1 ≥ C
    · rw [if_pos hge]
      have : (k : Int) % C + 1 = C := by omega
      rw [this, Int.emod_self]
    · rw [if_neg hge]
      exact (Int.emod_eq_of_lt (by omega) (by omega)).symm

/-- The string returned by call `k` (1-indexed) of a freshly constructed object. -/
theorem sm_getNextSequentialAddress_advance {g : StatelessMicroserviceWorkload} {C : Int}
    {S : Nat} (hC : 1 ≤ C) (hC31 : C < 2 ^ 31) (hn : g.numServices = C)
    (hS : g.segmentSize = S) (h0 : g.currentSegment = 0)
    (hl : g.services.length = C.toNat) (k : Nat) (hk : 1 ≤ k) :
    (getNextSequentialAddress (advance (k - 1) g)).1
      = formatAddress
          ((((k : Int) % C).toNat * S + ((k : Int) % C).toNat) % 2 ^ 64) := by
  have hsnd := sm_advance_currentSegment hC hn h0 k
  obtain ⟨j, rfl⟩ : ∃ j, k = j + 1 := ⟨k - 1, by omega⟩
  rw [sm_advance_succ_outer] at hsnd
  have hlo : 0 ≤ ((j + 1 : Nat) : Int) % C := Int.emod_nonneg _ (by omega)
  have hhi : ((j + 1 : Nat) : Int) % C < C := Int.emod_lt_of_pos _ (by omega)
  obtain ⟨hf1, _, hf3, hf4⟩ := sm_advance_fields j g
  generalize hc : ((j + 1 : Nat) : Int) % C = c at hsnd hlo hhi ⊢
  have hg1 : (getNextSequentialAddress (advance j g)).1
      = generateServiceAddress (getNextSequentialAddress (advance j g)).2
          (toInt32 (((getNextSequentialAddress (advance j g)).2.services.length
            + (U64 - toU64 (getNextSequentialAddress (advance j g)).2.numServices)
            + toU64 (getNextSequentialAddress (advance j g)).2.currentSegment) % U64)) := rfl
  have hnum : (getNextSequentialAddress (advance j g)).2.numServices = C := by
    rw [sm_getNextSequentialAddress_snd]; simpa [hn] using hf1
  have hserv : (getNextSequentialAddress (advance j g)).2.services.length = C.toNat := by
    rw [sm_getNextSequentialAddress_snd]; simp [hf4, hl]
  have hseg : (getNextSequentialAddress (advance j g)).2.segmentSize = S := by
    rw [sm_getNextSequentialAddress_snd]; simp [hf3, hS]
  have hCu : toU64 C = C.toNat := toU64_of_nonneg (by omega) (by omega)
  have hcu : toU64 c = c.toNat := toU64_of_nonneg hlo (by omega)
  have hidx : (C.toNat + (U64 - C.toNat) + c.toNat) % U64 = c.toNat := by
    unfold U64
    omega
  have hcnat : ((c.toNat : Nat) : Int) = c := Int.toNat_of_nonneg hlo
  simp only [add_tsub_cancel_right] at hg1 ⊢
  rw [hg1, generateServiceAddress, hnum, hserv, hseg, hsnd, hCu, hcu, hidx,
    toInt32_of_lt (by omega), hcnat, hcu]
  rfl

end StatelessMicroserviceWorkload

end Workloads

namespace Workloads

namespace StatelessMicroserviceWorkload

/-- Replacing `dependencyProbability` commutes with `getNextSequentialAddress`. -/
theorem sm_getNextSequentialAddress_dependencyProbability (g : StatelessMicroserviceWorkload)
    (d : ℚ) :
    getNextSequentialAddress { g with dependencyProbability := d }
      = ((getNextSequentialAddress g).1,
          { (getNextSequentialAddress g).2 with dependencyProbability := d }) := rfl

theorem sm_generateWorkloadLoop_dependencyProbability (n : Nat) (d : ℚ) :
    ∀ (out : List String) (g : StatelessMicroserviceWorkload),
      generateWorkloadLoop n out { g with dependencyProbability := d }
        = ((generateWorkloadLoop n out g).1,
            { (generateWorkloadLoop n out g).2 with dependencyProbability := d }) := by
  induction n with
  | zero => intro out g; rfl
  | succ n ih =>
    intro out g
    simp only [generateWorkloadLoop]
    rw [sm_getNextSequentialAddress_dependencyProbability]
    exact ih _ _

theorem sm_generateAddressesLoop_dependencyProbability (n : Nat) (d : ℚ) :
    ∀ g : StatelessMicroserviceWorkload,
      generateAddressesLoop n { g with dependencyProbability := d }
        = { generateAddressesLoop n g with dependencyProbability := d } := by
  induction n with
  | zero => intro g; rfl
  | succ n ih =>
    intro g
    simp only [generateAddressesLoop]
    exact ih { g with services := g.services ++ [generateSequentialAddress g] }

theorem sm_new_dependencyProbability (C : Int) (dp1 dp2 : ℚ) (S : Nat) :
    new C dp2 S = (new C dp1 S).map fun g => { g with dependencyProbability := dp2 } := by
  unfold new
  by_cases hC : C < 0
  · simp [hC]
  · simp only [if_neg hC, Option.map_some', generateAddresses]
    exact congrArg some (sm_generateAddressesLoop_dependencyProbability C.toNat dp2
      { numServices := C, dependencyProbability := dp1, segmentSize := S, currentSegment := 0,
        services := [] })

end StatelessMicroserviceWorkload

open StatelessMicroserviceWorkload in
/-- C4: for `numServices = C ≥ 1` the constructor succeeds, and after `k` calls of
`getNextSequentialAddress` on the fresh object `currentSegment` is `k mod C`, lies in
`0 .. C - 1`, and is 0 exactly when `C` divides `k`; every value of `0 .. C - 1` is
taken. -/
theorem microservice_currentSegment_cycle (C : Int) (dp : ℚ) (S : Nat) (hC : 1 ≤ C) :
    (∃ g, StatelessMicroserviceWorkload.new C dp S = some g) ∧
    ∀ g, StatelessMicroserviceWorkload.new C dp S = some g →
      (∀ k : Nat,
        0 ≤ (advance k g).currentSegment ∧ (advance k g).currentSegment ≤ C - 1 ∧
        (advance k g).currentSegment = (k : Int) % C ∧
        ((advance k g).currentSegment = 0 ↔ C ∣ (k : Int))) ∧
      (∀ v : Int, 0 ≤ v → v ≤ C - 1 → ∃ k : Nat, (advance k g).currentSegment = v) := by
  refine ⟨sm_new_isSome dp S (by omega), ?_⟩
  intro g hg
  obtain ⟨_, hn, _, _, h0, _⟩ := sm_new_fields hg
  have hcs := sm_advance_currentSegment hC hn h0
  constructor
  · intro k
    have hlo : 0 ≤ (k : Int) % C := Int.emod_nonneg _ (by omega)
    have hhi : (k : Int) % C < C := Int.emod_lt_of_pos _ (by omega)
    rw [hcs k]
    exact ⟨hlo, by omega, rfl, Int.dvd_iff_emod_eq_zero.symm⟩
  · intro v hv0 hv1
    refine ⟨v.toNat, ?_⟩
    rw [hcs, Int.toNat_of_nonneg hv0]
    exact Int.emod_eq_of_lt hv0 (by omega)

open StatelessMicroserviceWorkload in
/-- Witness of `microservice_currentSegment_cycle`: three services, four calls. -/
theorem microservice_currentSegment_cycle_witness :
    StatelessMicroserviceWorkload.new 3 0 0x800
        = some ⟨3, 0, 0x800, 0, ["0x00000000", "0x00000001", "0x00000002"]⟩ ∧
      (advance 4 (⟨3, 0, 0x800, 0, ["0x00000000", "0x00000001", "0x00000002"]⟩ :
          StatelessMicroserviceWorkload)).currentSegment = ((4 : Nat) : Int) % 3 :=
  ⟨by decide,
    (((microservice_currentSegment_cycle 3 0 0x800 (by decide)).2 _ (by decide)).1 4).2.2.1⟩

/-- C5 as stated fails: `StatelessMicroserviceWorkload(3, p, 2 ^ 63)` has `c = 2 mod 3 = 2`
at its second call, the sum `2 * 2 ^ 63 + 2` wraps around in `uint64_t`, and the second
address of `generateWorkload(2)` is `0x00000002`, not the formatting of `c * S + c`. -/
theorem microservice_kth_address_wraps :
    ((1 : Int) ≤ 3 ∧ (3 : Int) < 2 ^ 31 ∧ 1 ≤ 2 ∧ ((2 : Nat) : Int) ≤ 2) ∧
    (StatelessMicroserviceWorkload.new 3 0 (2 ^ 63)).map
        (fun g => (g.generateWorkload 2).1.get? (2 - 1))
      = some (some "0x00000002") ∧
    "0x00000002"
      ≠ formatAddress ((((2 : Nat) : Int) % 3).toNat * 2 ^ 63 + (((2 : Nat) : Int) % 3).toNat) := by
  decide

open StatelessMicroserviceWorkload in
/-- C5 (amended): for `1 ≤ C < 2 ^ 31` the k-th address (1-indexed) a freshly constructed
`StatelessMicroserviceWorkload(C, p, S)` returns is the formatted value of `c * S + c`
reduced modulo `2 ^ 64`, with `c = k mod C`; it is the formatted value of `c * S + c`
itself whenever that is below `2 ^ 64`; `StatelessMicroserviceWorkload(10, p, 0x800)
.generateWorkload(1)` returns the single address `0x00000801`, which lies in segment 1. -/
theorem microservice_kth_address (C : Int) (dp : ℚ) (S k : Nat) (n : Int) (hC : 1 ≤ C)
    (hC31 : C < 2 ^ 31) (hk : 1 ≤ k) (hkn : (k : Int) ≤ n) :
    (∃ g, StatelessMicroserviceWorkload.new C dp S = some g) ∧
    (∀ g, StatelessMicroserviceWorkload.new C dp S = some g →
      (g.generateWorkload n).1.get? (k - 1)
          = some (formatAddress
              ((((k : Int) % C).toNat * S + ((k : Int) % C).toNat) % 2 ^ 64)) ∧
      (((k : Int) % C).toNat * S + ((k : Int) % C).toNat < 2 ^ 64 →
        (g.generateWorkload n).1.get? (k - 1)
          = some (formatAddress (((k : Int) % C).toNat * S + ((k : Int) % C).toNat)))) ∧
    ((StatelessMicroserviceWorkload.new 10 dp 0x800).map (fun g => (g.generateWorkload 1).1)
        = some ["0x00000801"] ∧
      formatAddress (1 * 0x800 + 1) = "0x00000801" ∧
      1 * 0x800 ≤ 1 * 0x800 + 1 ∧ 1 * 0x800 + 1 < (1 + 1) * 0x800) := by
  refine ⟨sm_new_isSome dp S (by omega), ?_, ?_, by decide, by decide, by decide⟩
  · intro g hg
    obtain ⟨_, hn, _, hS, h0, hl⟩ := sm_new_fields hg
    have hi : k - 1 < n.toNat := by omega
    have hmain : (g.generateWorkload n).1.get? (k - 1)
        = some (formatAddress
            ((((k : Int) % C).toNat * S + ((k : Int) % C).toNat) % 2 ^ 64)) := by
      unfold generateWorkload
      rw [sm_generateWorkloadLoop_get _ _ _ hi,
        sm_getNextSequentialAddress_advance hC hC31 hn hS h0 hl k hk]
    refine ⟨hmain, ?_⟩
    intro hlt
    rw [hmain, Nat.mod_eq_of_lt hlt]
  · obtain ⟨g, hg⟩ := sm_new_isSome dp 0x800 (show (0 : Int) ≤ 10 by decide)
    obtain ⟨_, hn, _, hS, h0, hl⟩ := sm_new_fields hg
    rw [hg]
    simp only [Option.map_some', Option.some.injEq]
    show (generateWorkloadLoop 1 [] g).1 = _
    rw [sm_generateWorkloadLoop_succ]
    have h1 := sm_getNextSequentialAddress_advance (show (1 : Int) ≤ 10 by decide) (by decide)
      hn hS h0 hl 1 (le_refl 1)
    have h2 : (getNextSequentialAddress g).1 = "0x00000801" := by
      rw [show g = advance (1 - 1) g from rfl, h1]
      decide
    simp only [generateWorkloadLoop, h2]

open StatelessMicroserviceWorkload in
/-- Witness of `microservice_kth_address`: three services of size `0x800`, fifth address of
`generateWorkload(5)`. -/
theorem microservice_kth_address_witness :
    StatelessMicroserviceWorkload.new 3 0 0x800
        = some ⟨3, 0, 0x800, 0, ["0x00000000", "0x00000001", "0x00000002"]⟩ ∧
      ((⟨3, 0, 0x800, 0, ["0x00000000", "0x00000001", "0x00000002"]⟩ :
          StatelessMicroserviceWorkload).generateWorkload 5).1.get? (5 - 1)
        = some (formatAddress
            (((((5 : Nat) : Int) % 3).toNat * 0x800 + (((5 : Nat) : Int) % 3).toNat)
              % 2 ^ 64)) :=
  ⟨by decide,
    ((microservice_kth_address 3 0 0x800 5 5 (by decide) (by decide) (by decide)
      (by decide)).2.1 _ (by decide)).1⟩

open StatelessMicroserviceWorkload in
/-- C9: `dependencyProbability` is never consulted: two objects constructed with the same
`numServices` and `segmentSize` but different `dependencyProbability` are both constructed
or both rejected, return the same strings from `generateWorkload n`, and end with the same
`currentSegment`, `services`, `numServices` and `segmentSize`. -/
theorem microservice_dependencyProbability_unused (C : Int) (dp1 dp2 : ℚ) (S : Nat)
    (n : Int) :
    ((StatelessMicroserviceWorkload.new C dp1 S).isSome
        = (StatelessMicroserviceWorkload.new C dp2 S).isSome) ∧
    ∀ g1 g2, StatelessMicroserviceWorkload.new C dp1 S = some g1 →
      StatelessMicroserviceWorkload.new C dp2 S = some g2 →
        (g1.generateWorkload n).1 = (g2.generateWorkload n).1 ∧
        (g1.generateWorkload n).2.currentSegment = (g2.generateWorkload n).2.currentSegment ∧
        (g1.generateWorkload n).2.services = (g2.generateWorkload n).2.services ∧
        (g1.generateWorkload n).2.numServices = (g2.generateWorkload n).2.numServices ∧
        (g1.generateWorkload n).2.segmentSize = (g2.generateWorkload n).2.segmentSize := by
  have hnew := sm_new_dependencyProbability C dp1 dp2 S
  constructor
  · rw [hnew]; simp
  · intro g1 g2 h1 h2
    rw [h1] at hnew
    rw [hnew] at h2
    simp only [Option.map_some', Option.some.injEq] at h2
    subst h2
    unfold generateWorkload
    rw [sm_generateWorkloadLoop_dependencyProbability n.toNat dp2 [] g1]
    exact ⟨rfl, rfl, rfl, rfl, rfl⟩

open StatelessMicroserviceWorkload in
/-- Witness of `microservice_dependencyProbability_unused`: probabilities `0` and `1`. -/
theorem microservice_dependencyProbability_unused_witness :
    ((⟨3, 0, 0x800, 0, ["0x00000000", "0x00000001", "0x00000002"]⟩ :
          StatelessMicroserviceWorkload).generateWorkload 4).1
      = ((⟨3, 1, 0x800, 0, ["0x00000000", "0x00000001", "0x00000002"]⟩ :
          StatelessMicroserviceWorkload).generateWorkload 4).1 :=
  ((microservice_dependencyProbability_unused 3 0 1 0x800 4).2 _ _
    (by decide) (by decide)).1

end Workloads

namespace Workloads

/-- C6: for `v ≤ 0xFFFFFFFF` the formatted string is `"0x"` followed by exactly eight
lowercase hexadecimal digits, namely the hexadecimal digits of `v` padded on the left with
`'0'`, so it has length 10; for `v > 0xFFFFFFFF` it is `"0x"` followed by the unpadded
hexadecimal digits of `v`, more than eight of them, and differs from the formatting of the
low 32 bits.  The digits are those of `Nat.digits 16 v`, most significant first. -/
theorem formatAddress_shape (v : Nat) :
    (v ≤ 0xFFFFFFFF →
      ∃ ds : List Char, formatAddress v = "0x" ++ String.mk ds ∧ ds.length = 8 ∧
        (∀ c ∈ ds, isLowerHex c = true) ∧ hexValue ds = v ∧
        ds = List.replicate (8 - (hexDigits v).length) '0' ++ hexDigits v ∧
        (formatAddress v).length = 10) ∧
    (0xFFFFFFFF < v →
      formatAddress v = "0x" ++ String.mk (hexDigits v) ∧ 8 < (hexDigits v).length ∧
        (∀ c ∈ hexDigits v, isLowerHex c = true) ∧ hexValue (hexDigits v) = v ∧
        (formatAddress v).length = 2 + (hexDigits v).length ∧
        formatAddress v ≠ formatAddress (v % 2 ^ 32)) ∧
    (0 < v → hexDigits v = (Nat.digits 16 v).reverse.map hexChar) ∧
    hexDigits 0 = ['0'] := by
  have hlen := hexDigits_length_le_iff v 8 (by decide)
  have hstr : (formatAddress v).length = 2 + (List.leftpad 8 '0' (hexDigits v)).length := by
    show (formatAddress v).data.length = _
    rw [formatAddress_data]
    simp only [List.length_cons]
    omega
  refine ⟨?_, ?_, fun h => hexDigits_eq_digits h, by decide⟩
  · intro hv
    have hle : (hexDigits v).length ≤ 8 := hlen.2 (by omega)
    have hpad : (List.leftpad 8 '0' (hexDigits v)).length = 8 := by
      rw [List.leftpad_length]; omega
    refine ⟨List.leftpad 8 '0' (hexDigits v), rfl, hpad, ?_, ?_, rfl, by rw [hstr, hpad]⟩
    · intro c hc
      rcases List.mem_append.1 hc with h | h
      · rw [List.eq_of_mem_replicate h]; decide
      · exact isLowerHex_hexDigits v c h
    · show hexValue (List.replicate _ '0' ++ hexDigits v) = v
      rw [hexValue_replicate_zero_append, hexValue_hexDigits]
  · intro hv
    have hgt : 8 < (hexDigits v).length := by
      by_contra hc
      have := hlen.1 (by omega)
      omega
    have hpad : List.leftpad 8 '0' (hexDigits v) = hexDigits v := by
      show List.replicate (8 - (hexDigits v).length) '0' ++ hexDigits v = hexDigits v
      rw [show 8 - (hexDigits v).length = 0 by omega]
      rfl
    refine ⟨by rw [formatAddress, hpad], hgt, isLowerHex_hexDigits v, hexValue_hexDigits v,
      by rw [hstr, hpad], ?_⟩
    intro heq
    have h1 := formatAddress_injective heq
    have h2 : v % 2 ^ 32 < 2 ^ 32 := Nat.mod_lt _ (by decide)
    omega

/-- Witness of `formatAddress_shape`: the values `0x4000` and `0x123456789`. -/
theorem formatAddress_shape_witness :
    (∃ ds : List Char, formatAddress 0x4000 = "0x" ++ String.mk ds ∧ ds.length = 8 ∧
        (∀ c ∈ ds, isLowerHex c = true) ∧ hexValue ds = 0x4000 ∧
        ds = List.replicate (8 - (hexDigits 0x4000).length) '0' ++ hexDigits 0x4000 ∧
        (formatAddress 0x4000).length = 10) ∧
      8 < (hexDigits 0x123456789).length :=
  ⟨(formatAddress_shape 0x4000).1 (by decide),
    ((formatAddress_shape 0x123456789).2.1 (by decide)).2.1⟩

end Workloads

namespace Workloads

namespace AAAGamesWorkload

/-! ## Lemmas on `AAAGamesWorkload` -/

/-- With a non-empty list of positive sizes `generateAssetAddress` returns the formatted
minted value and has read two values of the stream. -/
theorem aaa_generateAssetAddress_eq (g : AAAGamesWorkload) (index : Int) (rnd : Nat → Nat)
    (pos : Nat) (hne : g.segmentSizes ≠ []) (hpos : ∀ s ∈ g.segmentSizes, 0 < s) :
    generateAssetAddress g index rnd pos
      = some (formatAddress (mintedValue g.segmentSizes (rnd pos) (rnd (pos + 1))), pos + 2) := by
  have hlen : 0 < g.segmentSizes.length := List.length_pos.2 hne
  have hidx : rnd pos % g.segmentSizes.length < g.segmentSizes.length := Nat.mod_lt _ hlen
  have hget : g.segmentSizes.get? (rnd pos % g.segmentSizes.length)
      = some (g.segmentSizes.get ⟨rnd pos % g.segmentSizes.length, hidx⟩) :=
    List.get?_eq_get hidx
  have hD : g.segmentSizes.getD (rnd pos % g.segmentSizes.length) 0
      = g.segmentSizes.get ⟨rnd pos % g.segmentSizes.length, hidx⟩ := by
    rw [List.getD_eq_getElem?_getD, ← List.get?_eq_getElem?, hget]
    rfl
  have hsz : 0 < g.segmentSizes.get ⟨rnd pos % g.segmentSizes.length, hidx⟩ :=
    hpos _ (List.get_mem _ _ _)
  unfold generateAssetAddress mintedValue
  rw [if_neg (by omega), hD]
  simp only [hget]
  rw [if_neg (by omega)]

/-- The stream values `generateAssetAddress` depends on are those at `pos` and `pos + 1`. -/
theorem aaa_generateAssetAddress_congr (g : AAAGamesWorkload) (index : Int) (rnd1 rnd2 : Nat → Nat)
    (pos : Nat) (h0 : rnd1 pos = rnd2 pos) (h1 : rnd1 (pos + 1) = rnd2 (pos + 1)) :
    generateAssetAddress g index rnd1 pos = generateAssetAddress g index rnd2 pos := by
  unfold generateAssetAddress
  rw [h0, h1]

theorem aaa_generateAssetAddress_pos {g : AAAGamesWorkload} {index : Int} {rnd : Nat → Nat}
    {pos : Nat} {a : String} {q : Nat}
    (h : generateAssetAddress g index rnd pos = some (a, q)) : q = pos + 2 := by
  unfold generateAssetAddress at h
  by_cases h0 : g.segmentSizes.length = 0
  · rw [if_pos h0] at h; simp at h
  · rw [if_neg h0] at h
    cases hget : g.segmentSizes.get? (rnd pos % g.segmentSizes.length) with
    | none =>
      simp only [hget] at h
      cases h
    | some sz =>
      simp only [hget] at h
      by_cases hsz : sz = 0
      · rw [if_pos hsz] at h; simp at h
      · rw [if_neg hsz] at h
        simp only [Option.some.injEq, Prod.mk.injEq] at h
        exact h.2.symm

/-- With the member `addresses` empty, `generateFullHexAddress` always mints. -/
theorem aaa_generateFullHexAddress_of_addresses_nil (g : AAAGamesWorkload) (rnd : Nat → Nat)
    (pos : Nat) (hnil : g.addresses = []) :
    generateFullHexAddress g rnd pos
      = generateAssetAddress g (toInt32 g.assets.length) rnd (pos + 1) := by
  unfold generateFullHexAddress
  rw [hnil]
  simp

theorem aaa_generateFullHexAddress_isSome (g : AAAGamesWorkload) (rnd : Nat → Nat) (pos : Nat)
    (hne : g.segmentSizes ≠ []) (hpos : ∀ s ∈ g.segmentSizes, 0 < s) :
    ∃ a q, generateFullHexAddress g rnd pos = some (a, q) := by
  unfold generateFullHexAddress
  split
  · rename_i hc
    have hne2 : g.addresses ≠ [] := by
      intro h
      rw [h] at hc
      simp at hc
    have hlen : 0 < g.addresses.length := List.length_pos.2 hne2
    have hidx : rnd (pos + 1) % g.addresses.length < g.addresses.length := Nat.mod_lt _ hlen
    rw [List.get?_eq_get hidx]
    exact ⟨_, _, rfl⟩
  · rw [aaa_generateAssetAddress_eq g _ rnd (pos + 1) hne hpos]
    exact ⟨_, _, rfl⟩

theorem aaa_generateWorkloadLoop_acc (g : AAAGamesWorkload) (rnd : Nat → Nat) (n : Nat) :
    ∀ (out : List String) (pos : Nat),
      generateWorkloadLoop g rnd n out pos
        = (generateWorkloadLoop g rnd n [] pos).map fun r => (out ++ r.1, r.2) := by
  induction n with
  | zero => intro out pos; simp [generateWorkloadLoop]
  | succ n ih =>
    intro out pos
    simp only [generateWorkloadLoop]
    cases hstep : generateFullHexAddress g rnd pos with
    | none => rfl
    | some r =>
      obtain ⟨a, q⟩ := r
      simp only
      rw [ih (out ++ [a]), ih ([] ++ [a])]
      cases generateWorkloadLoop g rnd n [] q with
      | none => rfl
      | some r => simp

theorem aaa_generateWorkloadLoop_succ (g : AAAGamesWorkload) (rnd : Nat → Nat) (n pos : Nat)
    {a : String} {q : Nat} (h : generateFullHexAddress g rnd pos = some (a, q)) :
    generateWorkloadLoop g rnd (n + 1) [] pos
      = (generateWorkloadLoop g rnd n [] q).map fun r => (a :: r.1, r.2) := by
  simp only [generateWorkloadLoop, h]
  rw [aaa_generateWorkloadLoop_acc]
  simp

theorem aaa_advance_succ (g : AAAGamesWorkload) (rnd : Nat → Nat) (m pos : Nat)
    {a : String} {q : Nat} (h : generateFullHexAddress g rnd pos = some (a, q)) :
    advance g rnd (m + 1) pos = advance g rnd m q := by
  simp only [advance, h]

/-- Whenever the batch loop returns, it returns `n` strings, string `i` being the one
`generateFullHexAddress` returns at the position reached after `i` calls. -/
theorem aaa_generateWorkloadLoop_spec (g : AAAGamesWorkload) (rnd : Nat → Nat) (n : Nat) :
    ∀ (pos : Nat) (out : List String) (q : Nat),
      generateWorkloadLoop g rnd n [] pos = some (out, q) →
        out.length = n ∧ advance g rnd n pos = some q ∧
        ∀ i, i < n → ∃ p a p1, advance g rnd i pos = some p ∧
          generateFullHexAddress g rnd p = some (a, p1) ∧ out.get? i = some a := by
  induction n with
  | zero =>
    intro pos out q h
    simp only [generateWorkloadLoop, Option.some.injEq, Prod.mk.injEq] at h
    obtain ⟨rfl, rfl⟩ := h
    exact ⟨rfl, rfl, fun i hi => absurd hi (Nat.not_lt_zero i)⟩
  | succ n ih =>
    intro pos out q h
    cases hstep : generateFullHexAddress g rnd pos with
    | none => simp [generateWorkloadLoop, hstep] at h
    | some ap =>
      obtain ⟨a, q0⟩ := ap
      rw [aaa_generateWorkloadLoop_succ g rnd n pos hstep] at h
      cases hloop : generateWorkloadLoop g rnd n [] q0 with
      | none => simp [hloop] at h
      | some r =>
        obtain ⟨out1, q1⟩ := r
        simp only [hloop, Option.map_some', Option.some.injEq, Prod.mk.injEq] at h
        obtain ⟨rfl, rfl⟩ := h
        obtain ⟨hlen, hadv, hget⟩ := ih q0 out1 q1 hloop
        refine ⟨by simp [hlen], ?_, ?_⟩
        · rw [aaa_advance_succ g rnd n pos hstep, hadv]
        · intro i hi
          cases i with
          | zero => exact ⟨pos, a, q0, rfl, hstep, rfl⟩
          | succ i =>
            obtain ⟨p, b, p1, h1, h2, h3⟩ := hget i (by omega)
            exact ⟨p, b, p1, by rw [aaa_advance_succ g rnd i pos hstep, h1], h2,
              by simpa using h3⟩

/-- With a non-empty list of positive sizes the batch loop returns. -/
theorem aaa_generateWorkloadLoop_isSome (g : AAAGamesWorkload) (rnd : Nat → Nat)
    (hne : g.segmentSizes ≠ []) (hpos : ∀ s ∈ g.segmentSizes, 0 < s) (n : Nat) :
    ∀ pos : Nat, ∃ out q, generateWorkloadLoop g rnd n [] pos = some (out, q) := by
  induction n with
  | zero => intro pos; exact ⟨[], pos, rfl⟩
  | succ n ih =>
    intro pos
    obtain ⟨a, q, hstep⟩ := aaa_generateFullHexAddress_isSome g rnd pos hne hpos
    obtain ⟨out, q1, hloop⟩ := ih q
    exact ⟨a :: out, q1, by rw [aaa_generateWorkloadLoop_succ g rnd n pos hstep, hloop]; rfl⟩

/-- The batch loop on an object whose member `addresses` is empty: every string is minted
from its own two stream values, three values being read per string. -/
theorem aaa_generateWorkloadLoop_minted (g : AAAGamesWorkload) (rnd : Nat → Nat)
    (hnil : g.addresses = []) (hne : g.segmentSizes ≠ [])
    (hpos : ∀ s ∈ g.segmentSizes, 0 < s) (n : Nat) :
    ∀ pos : Nat,
      generateWorkloadLoop g rnd n [] pos
        = some ((List.range n).map (fun j =>
              formatAddress (mintedValue g.segmentSizes (rnd (pos + 3 * j + 1))
                (rnd (pos + 3 * j + 2)))),
            pos + 3 * n) := by
  induction n with
  | zero => intro pos; rfl
  | succ n ih =>
    intro pos
    have hstep : generateFullHexAddress g rnd pos
        = some (formatAddress (mintedValue g.segmentSizes (rnd (pos + 1)) (rnd (pos + 2))),
            pos + 3) := by
      rw [aaa_generateFullHexAddress_of_addresses_nil g rnd pos hnil,
        aaa_generateAssetAddress_eq g _ rnd (pos + 1) hne hpos]
    rw [aaa_generateWorkloadLoop_succ g rnd n pos hstep, ih (pos + 3)]
    simp only [Option.map_some', Option.some.injEq, Prod.mk.injEq]
    refine ⟨?_, by omega⟩
    rw [List.range_succ_eq_map, List.map_cons, List.map_map]
    refine congrArg₂ _ rfl (List.map_congr_left ?_)
    intro j _
    simp only [Function.comp]
    rw [show pos + 3 + 3 * j + 1 = pos + 3 * (j + 1) + 1 by omega,
      show pos + 3 + 3 * j + 2 = pos + 3 * (j + 1) + 2 by omega]

/-- The constructor loop writes `assets` only and reads two stream values per asset. -/
theorem aaa_newLoop_fields (rnd : Nat → Nat) (n : Nat) :
    ∀ (i : Int) (g : AAAGamesWorkload) (pos : Nat) (r : AAAGamesWorkload) (q : Nat),
      newLoop rnd n i g pos = some (r, q) →
        r.numAssets = g.numAssets ∧ r.reuseProbability = g.reuseProbability ∧
        r.segmentSizes = g.segmentSizes ∧ r.addresses = g.addresses ∧ q = pos + 2 * n := by
  induction n with
  | zero =>
    intro i g pos r q h
    simp only [newLoop, Option.some.injEq, Prod.mk.injEq] at h
    obtain ⟨rfl, rfl⟩ := h
    exact ⟨rfl, rfl, rfl, rfl, rfl⟩
  | succ n ih =>
    intro i g pos r q h
    simp only [newLoop] at h
    cases hstep : generateAssetAddress g i rnd pos with
    | none => rw [hstep] at h; simp at h
    | some ap =>
      obtain ⟨a, p1⟩ := ap
      rw [hstep] at h
      have hp1 := aaa_generateAssetAddress_pos hstep
      obtain ⟨h1, h2, h3, h4, h5⟩ := ih _ _ _ _ _ h
      exact ⟨h1, h2, h3, h4, by omega⟩

theorem aaa_newLoop_isSome (rnd : Nat → Nat) (n : Nat) :
    ∀ (i : Int) (g : AAAGamesWorkload) (pos : Nat), g.segmentSizes ≠ [] →
      (∀ s ∈ g.segmentSizes, 0 < s) → ∃ r q, newLoop rnd n i g pos = some (r, q) := by
  induction n with
  | zero => intro i g pos _ _; exact ⟨g, pos, rfl⟩
  | succ n ih =>
    intro i g pos hne hpos
    simp only [newLoop]
    rw [aaa_generateAssetAddress_eq g i rnd pos hne hpos]
    exact ih _ _ _ hne hpos

theorem aaa_newLoop_congr (rnd1 rnd2 : Nat → Nat) (n : Nat) :
    ∀ (i : Int) (g : AAAGamesWorkload) (pos : Nat),
      (∀ j, pos ≤ j → j < pos + 2 * n → rnd1 j = rnd2 j) →
        newLoop rnd1 n i g pos = newLoop rnd2 n i g pos := by
  induction n with
  | zero => intro i g pos _; rfl
  | succ n ih =>
    intro i g pos h
    simp only [newLoop]
    rw [aaa_generateAssetAddress_congr g i rnd1 rnd2 pos (h _ (by omega) (by omega))
      (h _ (by omega) (by omega))]
    cases hstep : generateAssetAddress g i rnd2 pos with
    | none => rfl
    | some ap =>
      obtain ⟨a, p1⟩ := ap
      have hp1 := aaa_generateAssetAddress_pos hstep
      subst hp1
      exact ih _ _ _ (fun j hj1 hj2 => h j (by omega) (by omega))

theorem aaa_new_fields {numAssets : Int} {p : ℚ} {sizes : List Nat} {rnd : Nat → Nat}
    {g : AAAGamesWorkload} {pos : Nat} (h : new numAssets p sizes rnd = some (g, pos)) :
    0 ≤ numAssets ∧ g.reuseProbability = p ∧ g.segmentSizes = sizes ∧ g.addresses = [] ∧
      pos = 2 * numAssets.toNat := by
  unfold new at h
  by_cases hA : numAssets < 0
  · rw [if_pos hA] at h; simp at h
  · rw [if_neg hA] at h
    obtain ⟨_, h2, h3, h4, h5⟩ := aaa_newLoop_fields rnd _ _ _ _ _ _ h
    exact ⟨by omega, h2, h3, h4, by omega⟩

theorem aaa_new_isSome (numAssets : Int) (p : ℚ) (sizes : List Nat) (rnd : Nat → Nat)
    (hA : 0 ≤ numAssets) (hne : sizes ≠ []) (hpos : ∀ s ∈ sizes, 0 < s) :
    ∃ g pos, new numAssets p sizes rnd = some (g, pos) := by
  unfold new
  rw [if_neg (by omega)]
  exact aaa_newLoop_isSome rnd _ _ _ _ hne hpos

/-- With the member `addresses` empty the batch loop depends only on the stream values at
the `3 * n` positions from `pos` on. -/
theorem aaa_generateWorkloadLoop_congr (g : AAAGamesWorkload) (rnd1 rnd2 : Nat → Nat)
    (hnil : g.addresses = []) (n : Nat) :
    ∀ (out : List String) (pos : Nat),
      (∀ j, pos ≤ j → j < pos + 3 * n → rnd1 j = rnd2 j) →
        generateWorkloadLoop g rnd1 n out pos = generateWorkloadLoop g rnd2 n out pos := by
  induction n with
  | zero => intro out pos _; rfl
  | succ n ih =>
    intro out pos h
    simp only [generateWorkloadLoop]
    rw [aaa_generateFullHexAddress_of_addresses_nil g rnd1 pos hnil,
      aaa_generateFullHexAddress_of_addresses_nil g rnd2 pos hnil,
      aaa_generateAssetAddress_congr g _ rnd1 rnd2 (pos + 1) (h _ (by omega) (by omega))
        (h _ (by omega) (by omega))]
    cases hstep : generateAssetAddress g (toInt32 g.assets.length) rnd2 (pos + 1) with
    | none => rfl
    | some ap =>
      obtain ⟨a, p1⟩ := ap
      have hp1 := aaa_generateAssetAddress_pos hstep
      subst hp1
      exact ih _ _ (fun j hj1 hj2 => h j (by omega) (by omega))

end AAAGamesWorkload

end Workloads

namespace Workloads

namespace MachineLearningWorkload

/-- The result of the precompute loop does not depend on how much fuel was left over. -/
theorem ml_generateAddressesLoop_fuel (g : MachineLearningWorkload) (f1 : Nat) :
    ∀ (f2 addr : Nat) (out l1 l2 : List String),
      generateAddressesLoop g f1 addr out = some l1 →
        generateAddressesLoop g f2 addr out = some l2 → l1 = l2 := by
  induction f1 with
  | zero => intro f2 addr out l1 l2 h1; simp [generateAddressesLoop] at h1
  | succ f1 ih =>
    intro f2 addr out l1 l2 h1 h2
    cases f2 with
    | zero => simp [generateAddressesLoop] at h2
    | succ f2 =>
      rw [generateAddressesLoop] at h1 h2
      by_cases hlt : addr < g.virtualAddressSpaceSize
      · rw [if_pos hlt] at h1 h2
        exact ih _ _ _ _ _ h1 h2
      · rw [if_neg hlt] at h1 h2
        rw [← Option.some.inj h1, ← Option.some.inj h2]

theorem ml_new_fuel {N S f1 f2 : Nat} {g1 g2 : MachineLearningWorkload}
    (h1 : new f1 N S = some g1) (h2 : new f2 N S = some g2) : g1 = g2 := by
  unfold new generateAddresses at h1 h2
  cases hl1 : generateAddressesLoop
      { currentAddress := (4 * S) % U64, virtualAddressSpaceSize := N, segmentSize := S,
        addresses := [] } f1 ((4 * S) % U64) [] with
  | none => simp [hl1] at h1
  | some l1 =>
    cases hl2 : generateAddressesLoop
        { currentAddress := (4 * S) % U64, virtualAddressSpaceSize := N, segmentSize := S,
          addresses := [] } f2 ((4 * S) % U64) [] with
    | none => simp [hl2] at h2
    | some l2 =>
      have := ml_generateAddressesLoop_fuel _ _ _ _ _ _ _ hl1 hl2
      subst this
      simp only [hl1, Option.map_some', Option.some.injEq] at h1
      simp only [hl2, Option.map_some', Option.some.injEq] at h2
      rw [← h1, ← h2]

end MachineLearningWorkload

/-- C3, the code at a failing input: `AAAGamesWorkload(0, 1.0, {0x800})` whose `rand()`
yields `0, 0, 1, 0, 0, 2` returns `0x00000001` and then `0x00000002` from
`generateWorkload(2)`: the second address is minted, it is not among those emitted
before it. -/
theorem aaa_reuse_probability_one_mints :
    (AAAGamesWorkload.new 0 1 [0x800]
        (fun i => if i = 2 then 1 else if i = 5 then 2 else 0)).bind
      (fun gp => gp.1.generateWorkload 2
        (fun i => if i = 2 then 1 else if i = 5 then 2 else 0) gp.2)
      = some (["0x00000001", "0x00000002"], 6) ∧
    "0x00000002" ∉ ["0x00000001"] := by
  constructor
  · simp [AAAGamesWorkload.new, AAAGamesWorkload.newLoop, AAAGamesWorkload.generateWorkload,
      AAAGamesWorkload.generateWorkloadLoop, AAAGamesWorkload.generateFullHexAddress,
      AAAGamesWorkload.generateAssetAddress]
    decide
  · decide

/-- C7 as stated fails: `AAAGamesWorkload(0, 0.0, {4, 2})` whose `rand()` yields
`0, 0, 2, 0, 1, 0` draws the pairs `(segmentIndex, offset) = (0, 2)` and `(1, 0)`, which
differ, and `generateWorkload(2)` returns the address `0x00000002` twice
(`0 * 4 + 2 = 1 * 2 + 0`). -/
theorem aaa_distinct_pairs_collide :
    (AAAGamesWorkload.new 0 0 [4, 2]
        (fun i => if i = 2 then 2 else if i = 4 then 1 else 0)).bind
      (fun gp => gp.1.generateWorkload 2
        (fun i => if i = 2 then 2 else if i = 4 then 1 else 0) gp.2)
      = some (["0x00000002", "0x00000002"], 6) ∧
    ((fun i => if i = 2 then 2 else if i = 4 then 1 else 0) 1 % [4, 2].length,
      (fun i => if i = 2 then 2 else if i = 4 then 1 else 0) 2 % 4)
      ≠ (((fun i => if i = 2 then 2 else if i = 4 then 1 else 0) 4 % [4, 2].length,
          (fun i => if i = 2 then 2 else if i = 4 then 1 else 0) 5 % 2) : Nat × Nat) ∧
    ¬ (["0x00000002", "0x00000002"] : List String).Nodup := by
  refine ⟨?_, by decide, by decide⟩
  simp [AAAGamesWorkload.new, AAAGamesWorkload.newLoop, AAAGamesWorkload.generateWorkload,
    AAAGamesWorkload.generateWorkloadLoop, AAAGamesWorkload.generateFullHexAddress,
    AAAGamesWorkload.generateAssetAddress]
  decide

namespace AAAGamesWorkload

/-- The size `generateAssetAddress` selects is an entry of `segmentSizes`. -/
theorem aaa_getD_mem {sizes : List Nat} (hne : sizes ≠ []) (r : Nat) :
    sizes.getD (r % sizes.length) 0 ∈ sizes := by
  have hidx : r % sizes.length < sizes.length := Nat.mod_lt _ (List.length_pos.2 hne)
  rw [List.getD_eq_getElem sizes 0 hidx]
  exact List.getElem_mem _

/-- Two draws with the same segment index and the same minted number have the same
offset: within one segment the minted number determines the pair. -/
theorem aaa_mintedValue_same_index {sizes : List Nat} (hne : sizes ≠ [])
    (hpos : ∀ s ∈ sizes, 0 < s) (hU : ∀ s ∈ sizes, s < 2 ^ 64) (r1 r2 r1' r2' : Nat)
    (hidx : (drawnPair sizes r1 r2).1 = (drawnPair sizes r1' r2').1)
    (hval : mintedValue sizes r1 r2 = mintedValue sizes r1' r2') :
    drawnPair sizes r1 r2 = drawnPair sizes r1' r2' := by
  have hi : r1 % sizes.length = r1' % sizes.length := hidx
  have hmem := aaa_getD_mem hne r1'
  have hs0 := hpos _ hmem
  have hsU := hU _ hmem
  unfold mintedValue at hval
  unfold drawnPair
  rw [hi] at hval ⊢
  generalize sizes.getD (r1' % sizes.length) 0 = sz at hval hs0 hsU ⊢
  have ho : r2 % sz < sz := Nat.mod_lt _ hs0
  have ho' : r2' % sz < sz := Nat.mod_lt _ hs0
  have hmod : r2 % sz ≡ r2' % sz [MOD U64] := Nat.ModEq.add_left_cancel' _ hval
  have heq : r2 % sz = r2' % sz := by
    have h1 : (r2 % sz) % U64 = r2 % sz := Nat.mod_eq_of_lt (by unfold U64; omega)
    have h2 : (r2' % sz) % U64 = r2' % sz := Nat.mod_eq_of_lt (by unfold U64; omega)
    have h3 : (r2 % sz) % U64 = (r2' % sz) % U64 := hmod
    rw [h1, h2] at h3
    exact h3
  rw [heq]

/-- When the tiers `[i * segmentSizes[i], (i + 1) * segmentSizes[i])` are in increasing
order without overlap and end within 64 bits, draws with different segment indices mint
different numbers. -/
theorem aaa_mintedValue_cross_index {sizes : List Nat} (hne : sizes ≠ [])
    (hpos : ∀ s ∈ sizes, 0 < s)
    (htier : ∀ i j, i < j → j < sizes.length →
      (i + 1) * sizes.getD i 0 ≤ j * sizes.getD j 0)
    (hfit : ∀ i, i < sizes.length → (i + 1) * sizes.getD i 0 ≤ 2 ^ 64)
    (r1 r2 r1' r2' : Nat)
    (hidx : (drawnPair sizes r1 r2).1 ≠ (drawnPair sizes r1' r2').1) :
    mintedValue sizes r1 r2 ≠ mintedValue sizes r1' r2' := by
  have hlen : 0 < sizes.length := List.length_pos.2 hne
  have key : ∀ a b a' b' : Nat, a % sizes.length < a' % sizes.length →
      mintedValue sizes a b ≠ mintedValue sizes a' b' := by
    intro a b a' b' hlt
    have hi := Nat.mod_lt a hlen
    have hi' := Nat.mod_lt a' hlen
    have ht := htier _ _ hlt hi'
    have hf := hfit _ hi
    have hf' := hfit _ hi'
    have hs := hpos _ (aaa_getD_mem hne a)
    have hs' := hpos _ (aaa_getD_mem hne a')
    unfold mintedValue
    generalize sizes.getD (a % sizes.length) 0 = s at ht hf hs ⊢
    generalize sizes.getD (a' % sizes.length) 0 = s' at ht hf' hs' ⊢
    generalize a % sizes.length = i at ht hf ⊢
    generalize a' % sizes.length = i' at ht hf' ⊢
    have ho : b % s < s := Nat.mod_lt _ hs
    have ho' : b' % s' < s' := Nat.mod_lt _ hs'
    have e1 : (i + 1) * s = i * s + s := Nat.succ_mul i s
    have e2 : (i' + 1) * s' = i' * s' + s' := Nat.succ_mul i' s'
    have hv : (i * s + b % s) % U64 = i * s + b % s :=
      Nat.mod_eq_of_lt (by unfold U64; omega)
    have hv' : (i' * s' + b' % s') % U64 = i' * s' + b' % s' :=
      Nat.mod_eq_of_lt (by unfold U64; omega)
    rw [hv, hv']
    omega
  have hne' : r1 % sizes.length ≠ r1' % sizes.length := hidx
  rcases Nat.lt_or_gt_of_ne hne' with h | h
  · exact key r1 r2 r1' r2' h
  · exact fun heq => key r1' r2' r1 r2 h heq.symm

end AAAGamesWorkload

open AAAGamesWorkload in
/-- C7 (amended): for `reuseProbability = 0.0`, `numAssets ≥ 0` and a non-empty list of
positive 64-bit segment sizes, `generateWorkload n` on the fresh object returns `max n 0`
addresses, address `j` being minted from its own two stream values (three values are read
per address).  Whenever the `(segmentIndex, offset)` pairs drawn are pairwise distinct and
no two of them with different segment indices mint the same number
`segmentIndex * segmentSizes[segmentIndex] + offset`, the addresses are pairwise distinct.
The second condition holds for all draws when the tiers
`[i * segmentSizes[i], (i + 1) * segmentSizes[i])` are in increasing order without overlap
and end within 64 bits. -/
theorem aaa_no_reuse_minted (numAssets : Int) (sizes : List Nat) (rnd : Nat → Nat) (n : Int)
    (hA : 0 ≤ numAssets) (hne : sizes ≠ []) (hpos : ∀ s ∈ sizes, 0 < s)
    (hU : ∀ s ∈ sizes, s < 2 ^ 64) :
    ∃ g out, AAAGamesWorkload.new numAssets 0 sizes rnd = some (g, 2 * numAssets.toNat) ∧
      g.generateWorkload n rnd (2 * numAssets.toNat)
        = some (out, 2 * numAssets.toNat + 3 * n.toNat) ∧
      out = (List.range n.toNat).map (fun j =>
          formatAddress (mintedValue sizes (rnd (2 * numAssets.toNat + 3 * j + 1))
            (rnd (2 * numAssets.toNat + 3 * j + 2)))) ∧
      out.length = n.toNat ∧
      ((∀ j1, j1 < n.toNat → ∀ j2, j2 < n.toNat → j1 ≠ j2 →
          drawnPair sizes (rnd (2 * numAssets.toNat + 3 * j1 + 1))
              (rnd (2 * numAssets.toNat + 3 * j1 + 2))
            ≠ drawnPair sizes (rnd (2 * numAssets.toNat + 3 * j2 + 1))
              (rnd (2 * numAssets.toNat + 3 * j2 + 2))) →
        (∀ j1, j1 < n.toNat → ∀ j2, j2 < n.toNat →
          (drawnPair sizes (rnd (2 * numAssets.toNat + 3 * j1 + 1))
              (rnd (2 * numAssets.toNat + 3 * j1 + 2))).1
            ≠ (drawnPair sizes (rnd (2 * numAssets.toNat + 3 * j2 + 1))
              (rnd (2 * numAssets.toNat + 3 * j2 + 2))).1 →
          mintedValue sizes (rnd (2 * numAssets.toNat + 3 * j1 + 1))
              (rnd (2 * numAssets.toNat + 3 * j1 + 2))
            ≠ mintedValue sizes (rnd (2 * numAssets.toNat + 3 * j2 + 1))
              (rnd (2 * numAssets.toNat + 3 * j2 + 2))) →
        out.Nodup) ∧
      ((∀ i j, i < j → j < sizes.length →
          (i + 1) * sizes.getD i 0 ≤ j * sizes.getD j 0) →
        (∀ i, i < sizes.length → (i + 1) * sizes.getD i 0 ≤ 2 ^ 64) →
        (∀ j1, j1 < n.toNat → ∀ j2, j2 < n.toNat → j1 ≠ j2 →
          drawnPair sizes (rnd (2 * numAssets.toNat + 3 * j1 + 1))
              (rnd (2 * numAssets.toNat + 3 * j1 + 2))
            ≠ drawnPair sizes (rnd (2 * numAssets.toNat + 3 * j2 + 1))
              (rnd (2 * numAssets.toNat + 3 * j2 + 2))) →
        out.Nodup) := by
  obtain ⟨g, pos, hg⟩ := aaa_new_isSome numAssets 0 sizes rnd hA hne hpos
  obtain ⟨_, _, hsz, hnil, hp⟩ := aaa_new_fields hg
  subst hp
  have hloop := aaa_generateWorkloadLoop_minted g rnd hnil (hsz ▸ hne) (hsz ▸ hpos) n.toNat
    (2 * numAssets.toNat)
  rw [hsz] at hloop
  have hnodup : (∀ j1, j1 < n.toNat → ∀ j2, j2 < n.toNat → j1 ≠ j2 →
          drawnPair sizes (rnd (2 * numAssets.toNat + 3 * j1 + 1))
              (rnd (2 * numAssets.toNat + 3 * j1 + 2))
            ≠ drawnPair sizes (rnd (2 * numAssets.toNat + 3 * j2 + 1))
              (rnd (2 * numAssets.toNat + 3 * j2 + 2))) →
        (∀ j1, j1 < n.toNat → ∀ j2, j2 < n.toNat →
          (drawnPair sizes (rnd (2 * numAssets.toNat + 3 * j1 + 1))
              (rnd (2 * numAssets.toNat + 3 * j1 + 2))).1
            ≠ (drawnPair sizes (rnd (2 * numAssets.toNat + 3 * j2 + 1))
              (rnd (2 * numAssets.toNat + 3 * j2 + 2))).1 →
          mintedValue sizes (rnd (2 * numAssets.toNat + 3 * j1 + 1))
              (rnd (2 * numAssets.toNat + 3 * j1 + 2))
            ≠ mintedValue sizes (rnd (2 * numAssets.toNat + 3 * j2 + 1))
              (rnd (2 * numAssets.toNat + 3 * j2 + 2))) →
        ((List.range n.toNat).map (fun j =>
          formatAddress (mintedValue sizes (rnd (2 * numAssets.toNat + 3 * j + 1))
            (rnd (2 * numAssets.toNat + 3 * j + 2))))).Nodup := by
    intro hpairs hcross
    apply List.Nodup.map_on _ (List.nodup_range _)
    intro j1 hj1 j2 hj2 heq
    have h1 : j1 < n.toNat := List.mem_range.1 hj1
    have h2 : j2 < n.toNat := List.mem_range.1 hj2
    have hval := formatAddress_injective heq
    by_contra hjne
    apply hpairs j1 h1 j2 h2 hjne
    apply aaa_mintedValue_same_index hne hpos hU _ _ _ _ _ hval
    by_contra hidx
    exact hcross j1 h1 j2 h2 hidx hval
  refine ⟨g, _, hg, hloop, rfl, by simp, hnodup, ?_⟩
  intro htier hfit hpairs
  exact hnodup hpairs
    (fun j1 _ j2 _ hidx => aaa_mintedValue_cross_index hne hpos htier hfit _ _ _ _ hidx)

/-- Witness of `aaa_no_reuse_minted`: sizes `{4, 2}` and the stream `0, 1, 2, ...`; the two
pairs drawn are `(1, 0)` and `(0, 1)`, the two addresses `0x00000002` and `0x00000001`. -/
theorem aaa_no_reuse_minted_witness :
    ∃ g out, AAAGamesWorkload.new 0 0 [4, 2] (fun i => i) = some (g, 2 * (0 : Int).toNat) ∧
      g.generateWorkload 2 (fun i => i) (2 * (0 : Int).toNat)
        = some (out, 2 * (0 : Int).toNat + 3 * (2 : Int).toNat) ∧
      out = ["0x00000002", "0x00000001"] ∧ out.Nodup := by
  obtain ⟨g, out, h1, h2, h3, _, h5, _⟩ :=
    aaa_no_reuse_minted 0 [4, 2] (fun i => i) 2 (by decide) (by decide) (by decide)
      (by decide)
  refine ⟨g, out, h1, h2, ?_, h5 (by decide) (by decide)⟩
  rw [h3]
  decide

/-- C8: for each of the three classes and every integer `n`, `generateWorkload n` returns
`max n 0` strings (exactly `n` when `n ≥ 0`), string `i` being the result of the
next-address member function in the state reached after `i` calls, and ends in the state
reached after all of them; for `n ≤ 0` it returns the empty vector and changes nothing.
For `AAAGamesWorkload` this describes every call that returns, and the call returns for
every non-empty list of positive segment sizes (the modulo of the next-address function is
undefined otherwise). -/
theorem generateWorkload_applies_step (n : Int) :
    (∀ g : MachineLearningWorkload,
      (g.generateWorkload n).1.length = n.toNat ∧
      (0 ≤ n → ((g.generateWorkload n).1.length : Int) = n) ∧
      (∀ i, i < n.toNat → (g.generateWorkload n).1.get? i
        = some (MachineLearningWorkload.getNextSequentialAddress
            (MachineLearningWorkload.advance i g)).1) ∧
      (g.generateWorkload n).2 = MachineLearningWorkload.advance n.toNat g ∧
      (n ≤ 0 → g.generateWorkload n = ([], g))) ∧
    (∀ g : StatelessMicroserviceWorkload,
      (g.generateWorkload n).1.length = n.toNat ∧
      (0 ≤ n → ((g.generateWorkload n).1.length : Int) = n) ∧
      (∀ i, i < n.toNat → (g.generateWorkload n).1.get? i
        = some (StatelessMicroserviceWorkload.getNextSequentialAddress
            (StatelessMicroserviceWorkload.advance i g)).1) ∧
      (g.generateWorkload n).2 = StatelessMicroserviceWorkload.advance n.toNat g ∧
      (n ≤ 0 → g.generateWorkload n = ([], g))) ∧
    (∀ (g : AAAGamesWorkload) (rnd : Nat → Nat) (pos : Nat),
      (n ≤ 0 → g.generateWorkload n rnd pos = some ([], pos)) ∧
      (g.segmentSizes ≠ [] → (∀ s ∈ g.segmentSizes, 0 < s) →
        ∃ out q, g.generateWorkload n rnd pos = some (out, q)) ∧
      (∀ out q, g.generateWorkload n rnd pos = some (out, q) →
        out.length = n.toNat ∧ (0 ≤ n → (out.length : Int) = n) ∧
        AAAGamesWorkload.advance g rnd n.toNat pos = some q ∧
        ∀ i, i < n.toNat → ∃ p a p1,
          AAAGamesWorkload.advance g rnd i pos = some p ∧
          AAAGamesWorkload.generateFullHexAddress g rnd p = some (a, p1) ∧
          out.get? i = some a)) := by
  refine ⟨?_, ?_, ?_⟩
  · intro g
    refine ⟨MachineLearningWorkload.ml_generateWorkloadLoop_length _ g, ?_,
      MachineLearningWorkload.ml_generateWorkloadLoop_get _ g,
      MachineLearningWorkload.ml_generateWorkloadLoop_snd _ g, ?_⟩
    · intro hn
      show (((MachineLearningWorkload.generateWorkloadLoop n.toNat [] g).1.length : Nat) : Int)
        = n
      rw [MachineLearningWorkload.ml_generateWorkloadLoop_length]
      exact Int.toNat_of_nonneg hn
    · intro hn
      show MachineLearningWorkload.generateWorkloadLoop n.toNat [] g = ([], g)
      rw [Int.toNat_eq_zero.2 hn]
      rfl
  · intro g
    refine ⟨StatelessMicroserviceWorkload.sm_generateWorkloadLoop_length _ g, ?_,
      StatelessMicroserviceWorkload.sm_generateWorkloadLoop_get _ g,
      StatelessMicroserviceWorkload.sm_generateWorkloadLoop_snd _ g, ?_⟩
    · intro hn
      show (((StatelessMicroserviceWorkload.generateWorkloadLoop n.toNat [] g).1.length : Nat)
        : Int) = n
      rw [StatelessMicroserviceWorkload.sm_generateWorkloadLoop_length]
      exact Int.toNat_of_nonneg hn
    · intro hn
      show StatelessMicroserviceWorkload.generateWorkloadLoop n.toNat [] g = ([], g)
      rw [Int.toNat_eq_zero.2 hn]
      rfl
  · intro g rnd pos
    refine ⟨?_, ?_, ?_⟩
    · intro hn
      show AAAGamesWorkload.generateWorkloadLoop g rnd n.toNat [] pos = some ([], pos)
      rw [Int.toNat_eq_zero.2 hn]
      rfl
    · intro hne hpos
      exact AAAGamesWorkload.aaa_generateWorkloadLoop_isSome g rnd hne hpos n.toNat pos
    · intro out q h
      obtain ⟨h2, h3, h4⟩ :=
        AAAGamesWorkload.aaa_generateWorkloadLoop_spec g rnd n.toNat pos out q h
      refine ⟨h2, ?_, h3, h4⟩
      intro hn
      rw [h2]
      exact Int.toNat_of_nonneg hn

/-- Witness of `generateWorkload_applies_step`: `AAAGamesWorkload` with the sizes of `main`
and a stream of zeros returns two strings from `generateWorkload(2)`. -/
theorem generateWorkload_applies_step_witness :
    ∃ out q, (⟨0, 1 / 5, [0x800, 0x1000, 0x2000], [], []⟩ : AAAGamesWorkload).generateWorkload
        2 (fun _ => 0) 0 = some (out, q) ∧ out.length = (2 : Int).toNat := by
  obtain ⟨out, q, h⟩ :=
    ((generateWorkload_applies_step 2).2.2
      (⟨0, 1 / 5, [0x800, 0x1000, 0x2000], [], []⟩ : AAAGamesWorkload) (fun _ => 0) 0).2.1
      (by decide) (by decide)
  exact ⟨out, q, h,
    (((generateWorkload_applies_step 2).2.2
      (⟨0, 1 / 5, [0x800, 0x1000, 0x2000], [], []⟩ : AAAGamesWorkload) (fun _ => 0) 0).2.2
      out q h).1⟩

/-- C10: two objects constructed with identical parameters return identical vectors from
`generateWorkload n` (and end in identical states); for `AAAGamesWorkload` this holds
whenever the two `rand()` streams agree on the values read, the first
`2 * numAssets + 3 * n` ones. -/
theorem generateWorkload_deterministic (n : Int) :
    (∀ (N S fuel1 fuel2 : Nat) (g1 g2 : MachineLearningWorkload),
      MachineLearningWorkload.new fuel1 N S = some g1 →
        MachineLearningWorkload.new fuel2 N S = some g2 →
          g1.generateWorkload n = g2.generateWorkload n) ∧
    (∀ (C : Int) (dp : ℚ) (S : Nat) (g1 g2 : StatelessMicroserviceWorkload),
      StatelessMicroserviceWorkload.new C dp S = some g1 →
        StatelessMicroserviceWorkload.new C dp S = some g2 →
          g1.generateWorkload n = g2.generateWorkload n) ∧
    (∀ (numAssets : Int) (p : ℚ) (sizes : List Nat) (rnd1 rnd2 : Nat → Nat),
      (∀ i, i < 2 * numAssets.toNat + 3 * n.toNat → rnd1 i = rnd2 i) →
        (AAAGamesWorkload.new numAssets p sizes rnd1).bind
            (fun gp => gp.1.generateWorkload n rnd1 gp.2)
          = (AAAGamesWorkload.new numAssets p sizes rnd2).bind
            (fun gp => gp.1.generateWorkload n rnd2 gp.2)) := by
  refine ⟨?_, ?_, ?_⟩
  · intro N S fuel1 fuel2 g1 g2 h1 h2
    rw [MachineLearningWorkload.ml_new_fuel h1 h2]
  · intro C dp S g1 g2 h1 h2
    rw [h1] at h2
    rw [Option.some.inj h2]
  · intro numAssets p sizes rnd1 rnd2 h
    have hnew : AAAGamesWorkload.new numAssets p sizes rnd1
        = AAAGamesWorkload.new numAssets p sizes rnd2 := by
      unfold AAAGamesWorkload.new
      by_cases hA : numAssets < 0
      · rw [if_pos hA, if_pos hA]
      · rw [if_neg hA, if_neg hA]
        exact AAAGamesWorkload.aaa_newLoop_congr rnd1 rnd2 _ _ _ _
          (fun j _ hj => h j (by omega))
    rw [← hnew]
    cases hg : AAAGamesWorkload.new numAssets p sizes rnd1 with
    | none => simp only [Option.none_bind]
    | some gp =>
      obtain ⟨g, pos⟩ := gp
      obtain ⟨_, _, _, hnil, hpos⟩ := AAAGamesWorkload.aaa_new_fields hg
      simp only [Option.some_bind, AAAGamesWorkload.generateWorkload]
      exact AAAGamesWorkload.aaa_generateWorkloadLoop_congr g rnd1 rnd2 hnil _ _ _
        (fun j _ hj => h j (by omega))

/-- Witness of `generateWorkload_deterministic`: two streams that agree on their first six
values give `AAAGamesWorkload(0, 0.0, {4, 2}).generateWorkload(2)` the same result. -/
theorem generateWorkload_deterministic_witness :
    (AAAGamesWorkload.new 0 0 [4, 2] (fun i => if i < 6 then i else 7)).bind
        (fun gp => gp.1.generateWorkload 2 (fun i => if i < 6 then i else 7) gp.2)
      = (AAAGamesWorkload.new 0 0 [4, 2] (fun i => if i < 6 then i else 9)).bind
        (fun gp => gp.1.generateWorkload 2 (fun i => if i < 6 then i else 9) gp.2) :=
  (generateWorkload_deterministic 2).2.2 0 0 [4, 2] (fun i => if i < 6 then i else 7)
    (fun i => if i < 6 then i else 9)
    (fun i hi => by
      have h6 : i < 6 := hi
      simp [h6])

end Workloads

namespace Workloads

namespace MachineLearningWorkload

/-! ## The precomputed list and the period of the walk -/

/-- The ceiling of `(N - 4 * S) / S`, written `(N - 4 * S + (S - 1)) / S`, is the least
number of steps that reach `N` from `4 * S`. -/
theorem ml_ceil_spec {S N : Nat} (hS : 0 < S) (hlt : 4 * S < N) :
    1 ≤ (N - 4 * S + (S - 1)) / S ∧ N ≤ 4 * S + (N - 4 * S + (S - 1)) / S * S ∧
      4 * S + ((N - 4 * S + (S - 1)) / S - 1) * S < N := by
  have hdm := Nat.div_add_mod (N - 4 * S + (S - 1)) S
  have hmod := Nat.mod_lt (N - 4 * S + (S - 1)) hS
  generalize (N - 4 * S + (S - 1)) / S = q at hdm ⊢
  generalize (N - 4 * S + (S - 1)) % S = r at hdm hmod
  have hqS : q * S = S * q := Nat.mul_comm q S
  have hq1 : 1 ≤ q := by
    rcases Nat.eq_zero_or_pos q with h0 | hpos
    · subst h0; omega
    · exact hpos
  have hsub : (q - 1) * S + S = q * S := by
    rw [← Nat.succ_mul]; congr 1; omega
  exact ⟨hq1, by omega, by omega⟩

/-- What the precompute loop returns when it returns: the strings of `addr`,
`addr + S`, ... below `N`, appended to the strings it started with. -/
theorem ml_generateAddressesLoop_eq (g : MachineLearningWorkload)
    (hS : 0 < g.segmentSize) (hNS : g.virtualAddressSpaceSize + g.segmentSize ≤ U64)
    (fuel : Nat) :
    ∀ (addr : Nat) (out l : List String), generateAddressesLoop g fuel addr out = some l →
      l = out ++ (List.range
            ((g.virtualAddressSpaceSize - addr + (g.segmentSize - 1)) / g.segmentSize)).map
          (fun i => formatAddress (addr + i * g.segmentSize)) := by
  induction fuel with
  | zero => intro addr out l h; simp [generateAddressesLoop] at h
  | succ fuel ih =>
    intro addr out l h
    rw [generateAddressesLoop] at h
    by_cases hlt : addr < g.virtualAddressSpaceSize
    · rw [if_pos hlt, Nat.mod_eq_of_lt (by omega)] at h
      have hrec := ih _ _ _ h
      have hcount : (g.virtualAddressSpaceSize - addr + (g.segmentSize - 1)) / g.segmentSize
          = (g.virtualAddressSpaceSize - (addr + g.segmentSize) + (g.segmentSize - 1))
              / g.segmentSize + 1 := by
        by_cases hge : addr + g.segmentSize ≤ g.virtualAddressSpaceSize
        · rw [← Nat.add_div_right _ hS]
          congr 1
          omega
        · have h0 : (g.virtualAddressSpaceSize - (addr + g.segmentSize) + (g.segmentSize - 1))
              / g.segmentSize = 0 := Nat.div_eq_of_lt (by omega)
          have h1 : g.virtualAddressSpaceSize - addr + (g.segmentSize - 1)
              = (g.virtualAddressSpaceSize - addr - 1) + g.segmentSize := by omega
          have h2 : (g.virtualAddressSpaceSize - addr - 1) / g.segmentSize = 0 :=
            Nat.div_eq_of_lt (by omega)
          rw [h0, h1, Nat.add_div_right _ hS, h2]
      rw [hrec, hcount, List.range_succ_eq_map, List.map_cons, List.map_map,
        List.append_assoc]
      congr 1
      simp only [Nat.zero_mul, Nat.add_zero, List.singleton_append, List.cons.injEq, true_and]
      apply List.map_congr_left
      intro i _
      simp only [Function.comp, Nat.succ_eq_add_one]
      congr 1
      rw [Nat.add_mul]
      omega
    · rw [if_neg hlt] at h
      rw [← Option.some.inj h, show g.virtualAddressSpaceSize - addr = 0 by omega,
        Nat.zero_add, Nat.div_eq_of_lt (by omega)]
      simp

/-- The member `addresses` of a freshly constructed object. -/
theorem ml_new_addresses {fuel N S : Nat} {g : MachineLearningWorkload} (hS : 0 < S)
    (hNS : N + S ≤ U64) (h4 : 4 * S < U64) (h : new fuel N S = some g) :
    g.addresses
      = (List.range ((N - 4 * S + (S - 1)) / S)).map (fun i => formatAddress (4 * S + i * S)) := by
  unfold new generateAddresses at h
  cases hl : generateAddressesLoop
      { currentAddress := (4 * S) % U64, virtualAddressSpaceSize := N, segmentSize := S,
        addresses := [] } fuel ((4 * S) % U64) [] with
  | none => simp [hl] at h
  | some l =>
    simp only [hl, Option.map_some', Option.some.injEq] at h
    have hl2 := ml_generateAddressesLoop_eq _ hS hNS _ _ _ _ hl
    rw [Nat.mod_eq_of_lt h4] at hl2
    rw [← h]
    simpa using hl2

/-- With period `m` (the least number of steps from `4 * S` that reach `N`), the counter
after `j` calls is `4 * S + r * S` for some `r ≤ m` congruent to `j` modulo `m`. -/
theorem ml_advance_periodic {g : MachineLearningWorkload} {N S m : Nat}
    (hc : g.currentAddress = (4 * S) % U64) (hN : g.virtualAddressSpaceSize = N)
    (hgS : g.segmentSize = S) (hlt : 4 * S < N) (hNS : N + S ≤ U64)
    (hm1 : 1 ≤ m) (hm2 : N ≤ 4 * S + m * S) (hm3 : 4 * S + (m - 1) * S < N) :
    ∀ j, ∃ r, (advance j g).currentAddress = 4 * S + r * S ∧ r ≤ m ∧ r % m = j % m := by
  have h4 : (4 * S) % U64 = 4 * S := Nat.mod_eq_of_lt (by omega)
  intro j
  induction j with
  | zero => exact ⟨0, by simpa [h4] using hc, by omega, rfl⟩
  | succ j ih =>
    obtain ⟨r, hcur, hrm, hmod⟩ := ih
    refine ⟨j % m + 1, ?_, Nat.mod_lt _ (by omega), by rw [Nat.mod_add_mod]⟩
    rw [ml_advance_succ_outer]
    simp only [getNextSequentialAddress, ml_advance_virtualAddressSpaceSize,
      ml_advance_segmentSize, hN, hgS, hcur, h4]
    have hsucc : (j % m + 1) * S = j % m * S + S := Nat.succ_mul _ S
    rcases Nat.lt_or_ge r m with hr | hr
    · have hrj : j % m = r := by rw [← hmod, Nat.mod_eq_of_lt hr]
      have hle : r * S ≤ (m - 1) * S := Nat.mul_le_mul_right S (by omega)
      have hnot : ¬ 4 * S + r * S ≥ N := by omega
      have hU : 4 * S + r * S + S < U64 := by omega
      rw [if_neg hnot, hsucc, hrj, Nat.mod_eq_of_lt hU]
      omega
    · have hr' : r = m := by omega
      subst hr'
      have hj0 : j % r = 0 := by rw [← hmod, Nat.mod_self]
      have hyes : 4 * S + r * S ≥ N := hm2
      have hU : 4 * S + S < U64 := by omega
      rw [if_pos hyes, hsucc, hj0, Nat.zero_mul, Nat.zero_add, Nat.mod_eq_of_lt hU]

/-- Call `j + 1` returns the point `4 * S + (j mod m) * S` of the walk. -/
theorem ml_getNextSequentialAddress_periodic {g : MachineLearningWorkload} {N S m : Nat}
    (hc : g.currentAddress = (4 * S) % U64) (hN : g.virtualAddressSpaceSize = N)
    (hgS : g.segmentSize = S) (hlt : 4 * S < N) (hNS : N + S ≤ U64)
    (hm1 : 1 ≤ m) (hm2 : N ≤ 4 * S + m * S) (hm3 : 4 * S + (m - 1) * S < N) (j : Nat) :
    (getNextSequentialAddress (advance j g)).1 = formatAddress (4 * S + j % m * S) := by
  have h4 : (4 * S) % U64 = 4 * S := Nat.mod_eq_of_lt (by omega)
  obtain ⟨r, hcur, hrm, hmod⟩ := ml_advance_periodic hc hN hgS hlt hNS hm1 hm2 hm3 j
  simp only [getNextSequentialAddress, ml_advance_virtualAddressSpaceSize,
    ml_advance_segmentSize, hN, hgS, hcur, h4]
  rcases Nat.lt_or_ge r m with hr | hr
  · have hrj : j % m = r := by rw [← hmod, Nat.mod_eq_of_lt hr]
    have hle : r * S ≤ (m - 1) * S := Nat.mul_le_mul_right S (by omega)
    have hnot : ¬ 4 * S + r * S ≥ N := by omega
    rw [if_neg hnot, hrj]
  · have hr' : r = m := by omega
    subst hr'
    have hj0 : j % r = 0 := by rw [← hmod, Nat.mod_self]
    have hyes : 4 * S + r * S ≥ N := hm2
    rw [if_pos hyes, hj0, Nat.zero_mul, Nat.add_zero]

theorem ml_advance_add (m n : Nat) (g : MachineLearningWorkload) :
    advance (m + n) g = advance n (advance m g) := by
  induction m generalizing g with
  | zero => simp [advance]
  | succ m ih => rw [Nat.succ_add, ml_advance_succ, ml_advance_succ, ih]

theorem ml_generateWorkloadLoop_add (m n : Nat) (g : MachineLearningWorkload) :
    (generateWorkloadLoop (m + n) [] g).1
      = (generateWorkloadLoop m [] g).1
          ++ (generateWorkloadLoop n [] (generateWorkloadLoop m [] g).2).1 := by
  induction m generalizing g with
  | zero => simp [generateWorkloadLoop]
  | succ m ih =>
    rw [Nat.succ_add, ml_generateWorkloadLoop_succ, ml_generateWorkloadLoop_succ, ih]
    rfl

end MachineLearningWorkload

end Workloads

namespace Workloads

open MachineLearningWorkload in
/-- C11: for `S > 0`, `4 * S < N` and `N + S ≤ 2 ^ 64` the constructor completes, and every
address a freshly constructed `MachineLearningWorkload(N, S)` emits, after any number of
calls, is the formatting of a number `a` with `4 * S ≤ a < N` and `a - 4 * S` a multiple of
`S`; no number below `4 * S` is ever emitted; and a call that finds the counter at or
beyond `N` emits `4 * S`. -/
theorem ml_reserved_region (S N : Nat) (hS : 0 < S) (hlt : 4 * S < N)
    (hNS : N + S ≤ 2 ^ 64) :
    (∃ fuel g, MachineLearningWorkload.new fuel N S = some g) ∧
    ∀ fuel g, MachineLearningWorkload.new fuel N S = some g → ∀ j : Nat,
      (∃ a, (getNextSequentialAddress (advance j g)).1 = formatAddress a ∧
        4 * S ≤ a ∧ a < N ∧ S ∣ a - 4 * S) ∧
      (∀ b, b < 4 * S → (getNextSequentialAddress (advance j g)).1 ≠ formatAddress b) ∧
      (N ≤ (advance j g).currentAddress →
        (getNextSequentialAddress (advance j g)).1 = formatAddress (4 * S)) := by
  have hNU : N + S ≤ U64 := by unfold U64; exact hNS
  refine ⟨ml_new_terminates hS hNU, ?_⟩
  intro fuel g hg j
  obtain ⟨hc, hgN, hgS⟩ := ml_new_fields hg
  obtain ⟨hm1, hm2, hm3⟩ := ml_ceil_spec hS hlt
  have hemit := ml_getNextSequentialAddress_periodic hc hgN hgS hlt hNU hm1 hm2 hm3 j
  generalize (N - 4 * S + (S - 1)) / S = m at hm1 hm2 hm3 hemit
  have hjm : j % m < m := Nat.mod_lt _ (by omega)
  have hle : j % m * S ≤ (m - 1) * S := Nat.mul_le_mul_right S (by omega)
  refine ⟨⟨4 * S + j % m * S, hemit, by omega, by omega, ?_⟩, ?_, ?_⟩
  · rw [Nat.add_sub_cancel_left]
    exact Dvd.intro_left _ rfl
  · intro b hb heq
    rw [hemit] at heq
    have := formatAddress_injective heq
    omega
  · intro hge
    have h4 : (4 * S) % U64 = 4 * S := Nat.mod_eq_of_lt (by omega)
    simp only [getNextSequentialAddress, ml_advance_virtualAddressSpaceSize,
      ml_advance_segmentSize, hgN, hgS]
    rw [if_pos hge, h4]

open MachineLearningWorkload in
/-- Witness of `ml_reserved_region`: `MachineLearningWorkload(11, 2)`, sixth call. -/
theorem ml_reserved_region_witness :
    MachineLearningWorkload.new 3 11 2 = some ⟨8, 11, 2, ["0x00000008", "0x0000000a"]⟩ ∧
      ∃ a, (getNextSequentialAddress (advance 5
          (⟨8, 11, 2, ["0x00000008", "0x0000000a"]⟩ : MachineLearningWorkload))).1
        = formatAddress a ∧ 4 * 2 ≤ a ∧ a < 11 ∧ 2 ∣ a - 4 * 2 :=
  ⟨by decide,
    (((ml_reserved_region 2 11 (by decide) (by decide) (by decide)).2 3 _ (by decide)) 5).1⟩

open MachineLearningWorkload in
/-- C12: for `S > 0`, `4 * S < N` and `N + S ≤ 2 ^ 64` the list precomputed by the
constructor is non-empty, and with `L` its length the `(i + 1)`-th address emitted by the
freshly constructed object is the precomputed entry at index `i mod L`, for every `i`. -/
theorem ml_precompute_agrees (S N : Nat) (hS : 0 < S) (hlt : 4 * S < N)
    (hNS : N + S ≤ 2 ^ 64) :
    (∃ fuel g, MachineLearningWorkload.new fuel N S = some g) ∧
    ∀ fuel g, MachineLearningWorkload.new fuel N S = some g →
      0 < g.addresses.length ∧
      ∀ i : Nat, g.addresses.get? (i % g.addresses.length)
        = some (getNextSequentialAddress (advance i g)).1 := by
  have hNU : N + S ≤ U64 := by unfold U64; exact hNS
  refine ⟨ml_new_terminates hS hNU, ?_⟩
  intro fuel g hg
  obtain ⟨hc, hgN, hgS⟩ := ml_new_fields hg
  obtain ⟨hm1, hm2, hm3⟩ := ml_ceil_spec hS hlt
  have hlist := ml_new_addresses hS hNU (by omega) hg
  have hemit := ml_getNextSequentialAddress_periodic hc hgN hgS hlt hNU hm1 hm2 hm3
  generalize (N - 4 * S + (S - 1)) / S = m at hm1 hm2 hm3 hemit hlist
  have hlen : g.addresses.length = m := by rw [hlist]; simp
  refine ⟨by omega, ?_⟩
  intro i
  have hi : i % m < m := Nat.mod_lt _ (by omega)
  rw [hlen, hemit i, hlist, List.get?_eq_getElem?, List.getElem?_map,
    List.getElem?_range hi]
  rfl

open MachineLearningWorkload in
/-- Witness of `ml_precompute_agrees`: `MachineLearningWorkload(11, 2)`, whose precomputed
list has two entries; fourth emitted address. -/
theorem ml_precompute_agrees_witness :
    MachineLearningWorkload.new 3 11 2 = some ⟨8, 11, 2, ["0x00000008", "0x0000000a"]⟩ ∧
      (["0x00000008", "0x0000000a"] : List String).get? (3 % 2)
        = some (getNextSequentialAddress (advance 3
            (⟨8, 11, 2, ["0x00000008", "0x0000000a"]⟩ : MachineLearningWorkload))).1 :=
  ⟨by decide,
    ((ml_precompute_agrees 2 11 (by decide) (by decide) (by decide)).2 3
      ⟨8, 11, 2, ["0x00000008", "0x0000000a"]⟩ (by decide)).2 3⟩

open MachineLearningWorkload in
/-- C19: for `S > 0`, `N + S ≤ 2 ^ 64` and `4 * S < 2 ^ 64` the precompute loop of the
constructor terminates, and the list it leaves in `addresses` has entry `i` equal to the
formatting of `4 * S + i * S`, with exactly `ceil((N - 4 * S) / S)` entries when
`4 * S < N` (the least `L` with `N - 4 * S ≤ L * S`) and none when `N ≤ 4 * S`. -/
theorem ml_precompute_terminates (S N : Nat) (hS : 0 < S) (hNS : N + S ≤ 2 ^ 64)
    (h4 : 4 * S < 2 ^ 64) :
    (∃ fuel g, MachineLearningWorkload.new fuel N S = some g) ∧
    ∀ fuel g, MachineLearningWorkload.new fuel N S = some g →
      (∀ i, i < g.addresses.length →
        g.addresses.get? i = some (formatAddress (4 * S + i * S))) ∧
      (4 * S < N → g.addresses.length = (N - 4 * S + (S - 1)) / S ∧
        N - 4 * S ≤ g.addresses.length * S ∧ (g.addresses.length - 1) * S < N - 4 * S) ∧
      (N ≤ 4 * S → g.addresses = []) := by
  have hNU : N + S ≤ U64 := by unfold U64; exact hNS
  refine ⟨ml_new_terminates hS hNU, ?_⟩
  intro fuel g hg
  have hlist := ml_new_addresses hS hNU (by unfold U64; exact h4) hg
  have hlen : g.addresses.length = (N - 4 * S + (S - 1)) / S := by rw [hlist]; simp
  refine ⟨?_, ?_, ?_⟩
  · intro i hi
    rw [hlen] at hi
    rw [hlist, List.get?_eq_getElem?, List.getElem?_map, List.getElem?_range hi]
    rfl
  · intro hlt
    obtain ⟨_, hm2, hm3⟩ := ml_ceil_spec hS hlt
    rw [hlen]
    exact ⟨rfl, by omega, by omega⟩
  · intro hle
    apply List.eq_nil_of_length_eq_zero
    rw [hlen, show N - 4 * S = 0 by omega, Nat.zero_add]
    exact Nat.div_eq_of_lt (by omega)

/-- Witness of `ml_precompute_terminates`: `MachineLearningWorkload(11, 2)` precomputes the
two strings of 8 and 10. -/
theorem ml_precompute_terminates_witness :
    MachineLearningWorkload.new 3 11 2 = some ⟨8, 11, 2, ["0x00000008", "0x0000000a"]⟩ ∧
      (⟨8, 11, 2, ["0x00000008", "0x0000000a"]⟩ : MachineLearningWorkload).addresses.length
        = (11 - 4 * 2 + (2 - 1)) / 2 :=
  ⟨by decide,
    (((ml_precompute_terminates 2 11 (by decide) (by decide) (by decide)).2 3
      ⟨8, 11, 2, ["0x00000008", "0x0000000a"]⟩ (by decide)).2.1 (by decide)).1⟩

end Workloads

namespace Workloads

namespace StatelessMicroserviceWorkload

/-! ## Batches, the pre-generated list and the index of `StatelessMicroserviceWorkload` -/

theorem sm_advance_add (m n : Nat) (g : StatelessMicroserviceWorkload) :
    advance (m + n) g = advance n (advance m g) := by
  induction m generalizing g with
  | zero => simp [advance]
  | succ m ih => rw [Nat.succ_add, sm_advance_succ, sm_advance_succ, ih]

theorem sm_generateWorkloadLoop_add (m n : Nat) (g : StatelessMicroserviceWorkload) :
    (generateWorkloadLoop (m + n) [] g).1
      = (generateWorkloadLoop m [] g).1
          ++ (generateWorkloadLoop n [] (generateWorkloadLoop m [] g).2).1 := by
  induction m generalizing g with
  | zero => simp [generateWorkloadLoop]
  | succ m ih =>
    rw [Nat.succ_add, sm_generateWorkloadLoop_succ, sm_generateWorkloadLoop_succ, ih]
    rfl

/-- The string a call returns is computed from the members as they are after the call. -/
theorem sm_getNextSequentialAddress_fst (g : StatelessMicroserviceWorkload) :
    (getNextSequentialAddress g).1
      = generateServiceAddress (getNextSequentialAddress g).2
          (toInt32 (((getNextSequentialAddress g).2.services.length
            + (U64 - toU64 (getNextSequentialAddress g).2.numServices)
            + toU64 (getNextSequentialAddress g).2.currentSegment) % U64)) := rfl

/-- Two calls on one object that leave the same `currentSegment` return the same string. -/
theorem sm_same_segment_same_address (g : StatelessMicroserviceWorkload) (k1 k2 : Nat)
    (h : (advance (k1 + 1) g).currentSegment = (advance (k2 + 1) g).currentSegment) :
    (getNextSequentialAddress (advance k1 g)).1
      = (getNextSequentialAddress (advance k2 g)).1 := by
  have hstate : advance (k1 + 1) g = advance (k2 + 1) g := by
    obtain ⟨a1, a2, a3, a4⟩ := sm_advance_fields (k1 + 1) g
    obtain ⟨b1, b2, b3, b4⟩ := sm_advance_fields (k2 + 1) g
    cases h1 : advance (k1 + 1) g
    cases h2 : advance (k2 + 1) g
    rw [h1] at a1 a2 a3 a4 h
    rw [h2] at b1 b2 b3 b4 h
    simp only at a1 a2 a3 a4 b1 b2 b3 b4 h
    simp only [StatelessMicroserviceWorkload.mk.injEq]
    exact ⟨a1.trans b1.symm, a2.trans b2.symm, a3.trans b3.symm, h, a4.trans b4.symm⟩
  rw [sm_advance_succ_outer, sm_advance_succ_outer] at hstate
  rw [sm_getNextSequentialAddress_fst, sm_getNextSequentialAddress_fst (advance k2 g), hstate]

/-- The strings the precompute loop appends. -/
theorem sm_generateAddressesLoop_services (n : Nat) :
    ∀ g : StatelessMicroserviceWorkload,
      (generateAddressesLoop n g).services
        = g.services ++ (List.range n).map (fun i =>
            formatAddress
              ((toU64 g.currentSegment * g.segmentSize + (g.services.length + i)) % U64)) := by
  induction n with
  | zero => intro g; simp [generateAddressesLoop]
  | succ n ih =>
    intro g
    rw [generateAddressesLoop, ih, List.range_succ_eq_map, List.map_cons, List.map_map]
    simp only [List.append_assoc, List.singleton_append, List.length_append,
      List.length_singleton, Nat.add_zero]
    congr 2
    apply List.map_congr_left
    intro i _
    simp only [Function.comp, Nat.succ_eq_add_one]
    congr 2
    omega

theorem sm_new_services {C : Int} {dp : ℚ} {S : Nat} {g : StatelessMicroserviceWorkload}
    (h : new C dp S = some g) :
    g.services
      = (List.range C.toNat).map (fun i => formatAddress ((toU64 0 * S + i) % U64)) := by
  unfold new at h
  by_cases hC : C < 0
  · rw [if_pos hC] at h; simp at h
  · rw [if_neg hC] at h
    simp only [Option.some.injEq] at h
    rw [← h, generateAddresses, sm_generateAddressesLoop_services]
    simp

end StatelessMicroserviceWorkload

end Workloads

namespace Workloads

open StatelessMicroserviceWorkload in
/-- C13 as stated fails: there are no parameters for which two calls on a freshly
constructed `StatelessMicroserviceWorkload` end with the same `currentSegment` and return
different addresses; for instance with three services of size `0x800` the first and the
fourth call both return `0x00000801`. -/
theorem microservice_history_dependence_refuted :
    (¬ ∃ (C : Int) (dp : ℚ) (S : Nat) (g : StatelessMicroserviceWorkload) (k1 k2 : Nat),
        StatelessMicroserviceWorkload.new C dp S = some g ∧
        (advance (k1 + 1) g).currentSegment = (advance (k2 + 1) g).currentSegment ∧
        (getNextSequentialAddress (advance k1 g)).1
          ≠ (getNextSequentialAddress (advance k2 g)).1) ∧
    (StatelessMicroserviceWorkload.new 3 0 0x800).map
        (fun g => ((getNextSequentialAddress (advance 0 g)).1,
          (getNextSequentialAddress (advance 3 g)).1))
      = some ("0x00000801", "0x00000801") := by
  refine ⟨?_, by decide⟩
  rintro ⟨C, dp, S, g, k1, k2, _, hseg, hne⟩
  exact hne (sm_same_segment_same_address g k1 k2 hseg)

open StatelessMicroserviceWorkload in
/-- C13 (amended): the count `services.size()` used by the next-address step is the number
of addresses the constructor pre-generated and stays `numServices`; two calls on a freshly
constructed object that end with the same `currentSegment` return the same address,
whatever the number of calls before them; and for `1 ≤ numServices < 2 ^ 31` the address
is `currentSegment * segmentSize + currentSegment` in `uint64_t` arithmetic. -/
theorem microservice_address_from_currentSegment (C : Int) (dp : ℚ) (S : Nat)
    (hC : 0 ≤ C) :
    (∃ g, StatelessMicroserviceWorkload.new C dp S = some g) ∧
    ∀ g, StatelessMicroserviceWorkload.new C dp S = some g →
      (∀ k, (advance k g).services.length = C.toNat ∧ (advance k g).numServices = C) ∧
      (∀ k1 k2,
        (advance (k1 + 1) g).currentSegment = (advance (k2 + 1) g).currentSegment →
          (getNextSequentialAddress (advance k1 g)).1
            = (getNextSequentialAddress (advance k2 g)).1) ∧
      (1 ≤ C → C < 2 ^ 31 → ∀ k,
        (getNextSequentialAddress (advance k g)).1
          = formatAddress
              (((advance (k + 1) g).currentSegment.toNat * S
                + (advance (k + 1) g).currentSegment.toNat) % 2 ^ 64)) := by
  refine ⟨sm_new_isSome dp S hC, ?_⟩
  intro g hg
  obtain ⟨_, hn, _, hS, h0, hl⟩ := sm_new_fields hg
  refine ⟨?_, fun k1 k2 h => sm_same_segment_same_address g k1 k2 h, ?_⟩
  · intro k
    obtain ⟨h1, _, _, h4⟩ := sm_advance_fields k g
    exact ⟨by rw [h4, hl], by rw [h1, hn]⟩
  · intro h1 h31 k
    have hk := sm_getNextSequentialAddress_advance h1 h31 hn hS h0 hl (k + 1) (by omega)
    rw [sm_advance_currentSegment h1 hn h0 (k + 1)]
    simpa using hk

open StatelessMicroserviceWorkload in
/-- Witness of `microservice_address_from_currentSegment`: three services, calls 1 and 4. -/
theorem microservice_address_from_currentSegment_witness :
    StatelessMicroserviceWorkload.new 3 0 0x800
        = some ⟨3, 0, 0x800, 0, ["0x00000000", "0x00000001", "0x00000002"]⟩ ∧
      (getNextSequentialAddress (advance 0
          (⟨3, 0, 0x800, 0, ["0x00000000", "0x00000001", "0x00000002"]⟩ :
            StatelessMicroserviceWorkload))).1
        = (getNextSequentialAddress (advance 3
          (⟨3, 0, 0x800, 0, ["0x00000000", "0x00000001", "0x00000002"]⟩ :
            StatelessMicroserviceWorkload))).1 :=
  ⟨by decide,
    ((microservice_address_from_currentSegment 3 0 0x800 (by decide)).2
      ⟨3, 0, 0x800, 0, ["0x00000000", "0x00000001", "0x00000002"]⟩ (by decide)).2.1 0 3
      (by decide)⟩

/-- C16: for `MachineLearningWorkload` and `StatelessMicroserviceWorkload`, from every state
and for all `m, n ≥ 0`, the vectors returned by `generateWorkload m` and then
`generateWorkload n` concatenate to the vector `generateWorkload (m + n)` returns from the
same starting state, and both ways end in the same state. -/
theorem generateWorkload_batch_composition (m n : Int) (hm : 0 ≤ m) (hn : 0 ≤ n) :
    (∀ g : MachineLearningWorkload,
      (g.generateWorkload (m + n)).1
          = (g.generateWorkload m).1 ++ ((g.generateWorkload m).2.generateWorkload n).1 ∧
      (g.generateWorkload (m + n)).2 = ((g.generateWorkload m).2.generateWorkload n).2) ∧
    (∀ g : StatelessMicroserviceWorkload,
      (g.generateWorkload (m + n)).1
          = (g.generateWorkload m).1 ++ ((g.generateWorkload m).2.generateWorkload n).1 ∧
      (g.generateWorkload (m + n)).2 = ((g.generateWorkload m).2.generateWorkload n).2) := by
  have hadd : (m + n).toNat = m.toNat + n.toNat := Int.toNat_add hm hn
  constructor
  · intro g
    simp only [MachineLearningWorkload.generateWorkload, hadd]
    refine ⟨MachineLearningWorkload.ml_generateWorkloadLoop_add _ _ g, ?_⟩
    rw [MachineLearningWorkload.ml_generateWorkloadLoop_snd,
      MachineLearningWorkload.ml_generateWorkloadLoop_snd,
      MachineLearningWorkload.ml_generateWorkloadLoop_snd,
      MachineLearningWorkload.ml_advance_add]
  · intro g
    simp only [StatelessMicroserviceWorkload.generateWorkload, hadd]
    refine ⟨StatelessMicroserviceWorkload.sm_generateWorkloadLoop_add _ _ g, ?_⟩
    rw [StatelessMicroserviceWorkload.sm_generateWorkloadLoop_snd,
      StatelessMicroserviceWorkload.sm_generateWorkloadLoop_snd,
      StatelessMicroserviceWorkload.sm_generateWorkloadLoop_snd,
      StatelessMicroserviceWorkload.sm_advance_add]

/-- Witness of `generateWorkload_batch_composition`: batches of 2 and 3 on
`MachineLearningWorkload(11, 2)`. -/
theorem generateWorkload_batch_composition_witness :
    ((⟨8, 11, 2, ["0x00000008", "0x0000000a"]⟩ : MachineLearningWorkload).generateWorkload
        (2 + 3)).1
      = ((⟨8, 11, 2, ["0x00000008", "0x0000000a"]⟩ : MachineLearningWorkload).generateWorkload
          2).1
        ++ (((⟨8, 11, 2, ["0x00000008", "0x0000000a"]⟩ :
            MachineLearningWorkload).generateWorkload 2).2.generateWorkload 3).1 :=
  ((generateWorkload_batch_composition 2 3 (by decide) (by decide)).1
    ⟨8, 11, 2, ["0x00000008", "0x0000000a"]⟩).1

/-- C17 as stated fails: `StatelessMicroserviceWorkload(3, p, 2)` pre-generates the strings
of 0, 1 and 2, and the last value, `0 * 2 + 2`, is not below the segment size 2. -/
theorem microservice_pregenerated_segment_refuted :
    (StatelessMicroserviceWorkload.new 3 0 2).map (fun g => g.services)
        = some ["0x00000000", "0x00000001", "0x00000002"] ∧
      formatAddress (0 * 2 + 2) = "0x00000002" ∧ ¬ (0 * 2 + 2 < 2) := by
  decide

/-- C17 (amended): for `0 ≤ C < 2 ^ 31` the list the constructor builds has exactly `C`
entries, entry `i` being the formatted value `0 * S + i`; that value is below `S` exactly
when `i < S`, so all entries lie in segment 0 exactly when `C ≤ S`. -/
theorem microservice_pregenerated (C : Int) (dp : ℚ) (S : Nat) (hC : 0 ≤ C)
    (hC31 : C < 2 ^ 31) :
    ∃ g, StatelessMicroserviceWorkload.new C dp S = some g ∧
      g.services.length = C.toNat ∧
      (∀ i, i < C.toNat → g.services.get? i = some (formatAddress (0 * S + i))) ∧
      (∀ i, 0 * S + i < S ↔ i < S) ∧
      ((∀ i, i < C.toNat → 0 * S + i < S) ↔ C.toNat ≤ S) := by
  obtain ⟨g, hg⟩ := StatelessMicroserviceWorkload.sm_new_isSome dp S hC
  have hserv := StatelessMicroserviceWorkload.sm_new_services hg
  have hlen : g.services.length = C.toNat := by rw [hserv]; simp
  refine ⟨g, hg, hlen, ?_, ?_, ?_⟩
  · intro i hi
    rw [hserv, List.get?_eq_getElem?, List.getElem?_map, List.getElem?_range hi]
    have h0 : toU64 0 = 0 := by decide
    have hmod : i % U64 = i := Nat.mod_eq_of_lt (by unfold U64; omega)
    simp [h0, hmod]
  · intro i
    rw [Nat.zero_mul, Nat.zero_add]
  · simp only [Nat.zero_mul, Nat.zero_add]
    constructor
    · intro h
      by_contra hc
      exact absurd (h S (by omega)) (Nat.lt_irrefl S)
    · intro h i hi
      omega

/-- Witness of `microservice_pregenerated`: three services of size `0x800`. -/
theorem microservice_pregenerated_witness :
    ∃ g, StatelessMicroserviceWorkload.new 3 0 0x800 = some g ∧
      g.services.length = (3 : Int).toNat ∧
      (∀ i, i < (3 : Int).toNat → g.services.get? i = some (formatAddress (0 * 0x800 + i))) ∧
      (∀ i, 0 * 0x800 + i < 0x800 ↔ i < 0x800) ∧
      ((∀ i, i < (3 : Int).toNat → 0 * 0x800 + i < 0x800) ↔ (3 : Int).toNat ≤ 0x800) :=
  microservice_pregenerated 3 0 0x800 (by decide) (by decide)

end Workloads

namespace Workloads

namespace AAAGamesWorkload

/-! ## `reuseProbability` and the number of stream values read -/

theorem aaa_newLoop_reuseProbability (rnd : Nat → Nat) (p : ℚ) (n : Nat) :
    ∀ (i : Int) (g : AAAGamesWorkload) (pos : Nat),
      newLoop rnd n i { g with reuseProbability := p } pos
        = (newLoop rnd n i g pos).map
            (fun r => ({ r.1 with reuseProbability := p }, r.2)) := by
  induction n with
  | zero => intro i g pos; rfl
  | succ n ih =>
    intro i g pos
    simp only [newLoop]
    have hgen : generateAssetAddress { g with reuseProbability := p } i rnd pos
        = generateAssetAddress g i rnd pos := rfl
    rw [hgen]
    cases generateAssetAddress g i rnd pos with
    | none => rfl
    | some ap =>
      obtain ⟨a, p1⟩ := ap
      exact ih (i + 1) { g with assets := g.assets ++ [a] } p1

theorem aaa_new_reuseProbability (numAssets : Int) (p1 p2 : ℚ) (sizes : List Nat)
    (rnd : Nat → Nat) :
    new numAssets p2 sizes rnd
      = (new numAssets p1 sizes rnd).map
          (fun r => ({ r.1 with reuseProbability := p2 }, r.2)) := by
  unfold new
  by_cases hA : numAssets < 0
  · simp [hA]
  · rw [if_neg hA, if_neg hA]
    exact aaa_newLoop_reuseProbability rnd p2 _ _
      { numAssets := numAssets, reuseProbability := p1, segmentSizes := sizes, assets := [],
        addresses := [] } 0

/-- With the member `addresses` empty, `reuseProbability` has no influence on a call of
`generateFullHexAddress`. -/
theorem aaa_generateFullHexAddress_reuseProbability (g : AAAGamesWorkload) (p : ℚ)
    (rnd : Nat → Nat) (pos : Nat) (hnil : g.addresses = []) :
    generateFullHexAddress { g with reuseProbability := p } rnd pos
      = generateFullHexAddress g rnd pos := by
  rw [aaa_generateFullHexAddress_of_addresses_nil g rnd pos hnil,
    aaa_generateFullHexAddress_of_addresses_nil { g with reuseProbability := p } rnd pos hnil]
  rfl

theorem aaa_generateWorkloadLoop_reuseProbability (g : AAAGamesWorkload) (p : ℚ)
    (rnd : Nat → Nat) (hnil : g.addresses = []) (n : Nat) :
    ∀ (out : List String) (pos : Nat),
      generateWorkloadLoop { g with reuseProbability := p } rnd n out pos
        = generateWorkloadLoop g rnd n out pos := by
  induction n with
  | zero => intro out pos; rfl
  | succ n ih =>
    intro out pos
    simp only [generateWorkloadLoop]
    rw [aaa_generateFullHexAddress_reuseProbability g p rnd pos hnil]
    cases generateFullHexAddress g rnd pos with
    | none => rfl
    | some ap =>
      obtain ⟨a, p1⟩ := ap
      exact ih _ _

/-- With the member `addresses` empty, a call of `generateFullHexAddress` that returns
has read three stream values and returns what `generateAssetAddress` minted. -/
theorem aaa_generateFullHexAddress_three (g : AAAGamesWorkload) (rnd : Nat → Nat)
    (hnil : g.addresses = []) {pos : Nat} {a : String} {q : Nat}
    (h : generateFullHexAddress g rnd pos = some (a, q)) :
    q = pos + 3 ∧
      generateAssetAddress g (toInt32 g.assets.length) rnd (pos + 1) = some (a, q) := by
  rw [aaa_generateFullHexAddress_of_addresses_nil g rnd pos hnil] at h
  exact ⟨aaa_generateAssetAddress_pos h, h⟩

theorem aaa_generateWorkloadLoop_pos (g : AAAGamesWorkload) (rnd : Nat → Nat)
    (hnil : g.addresses = []) (n : Nat) :
    ∀ (pos : Nat) (out : List String) (q : Nat),
      generateWorkloadLoop g rnd n [] pos = some (out, q) →
        q = pos + 3 * n ∧ out.length = n := by
  induction n with
  | zero =>
    intro pos out q h
    simp only [generateWorkloadLoop, Option.some.injEq, Prod.mk.injEq] at h
    obtain ⟨rfl, rfl⟩ := h
    exact ⟨rfl, rfl⟩
  | succ n ih =>
    intro pos out q h
    cases hstep : generateFullHexAddress g rnd pos with
    | none => simp [generateWorkloadLoop, hstep] at h
    | some ap =>
      obtain ⟨a, q0⟩ := ap
      rw [aaa_generateWorkloadLoop_succ g rnd n pos hstep] at h
      cases hloop : generateWorkloadLoop g rnd n [] q0 with
      | none => simp [hloop] at h
      | some r =>
        obtain ⟨out1, q1⟩ := r
        simp only [hloop, Option.map_some', Option.some.injEq, Prod.mk.injEq] at h
        obtain ⟨rfl, rfl⟩ := h
        obtain ⟨hq, hlen⟩ := ih q0 out1 q1 hloop
        have hq0 := (aaa_generateFullHexAddress_three g rnd hnil hstep).1
        exact ⟨by omega, by simp [hlen]⟩

end AAAGamesWorkload

end Workloads

namespace Workloads

/-- C14 as stated fails: with `segmentSizes = {1, 2 ^ 64 - 1}` and `rand()` returning 1 and
then 5, the index is 1 and the offset 5, the sum `1 * (2 ^ 64 - 1) + 5` wraps around in
`uint64_t`, and `generateAssetAddress` returns `0x00000004`: not the formatting of the
unreduced sum, and 4 is not in `[1 * (2 ^ 64 - 1), 2 * (2 ^ 64 - 1))`. -/
theorem aaa_minted_address_wraps :
    (([1, 18446744073709551615] : List Nat) ≠ [] ∧
      ∀ s ∈ ([1, 18446744073709551615] : List Nat), 0 < s) ∧
    AAAGamesWorkload.generateAssetAddress ⟨0, 0, [1, 18446744073709551615], [], []⟩ 0
        (fun i => if i = 0 then 1 else 5) 0
      = some ("0x00000004", 2) ∧
    "0x00000004" = formatAddress 4 ∧
    "0x00000004"
      ≠ formatAddress (1 * 18446744073709551615 + 5 % 18446744073709551615) ∧
    ¬ (1 * 18446744073709551615 ≤ 4) := by
  refine ⟨by decide, ?_, by decide, by decide, by decide⟩
  simp [AAAGamesWorkload.generateAssetAddress]
  decide

open AAAGamesWorkload in
/-- C14 (amended): for a non-empty `segmentSizes` with positive entries and stream values
`r1 = rnd pos`, `r2 = rnd (pos + 1)`, the index `i = r1 mod length` is in range, the size
`segmentSizes[i]` is positive (no division by zero), and `generateAssetAddress` returns the
formatting of `i * segmentSizes[i] + (r2 mod segmentSizes[i])` reduced modulo `2 ^ 64`;
when `(i + 1) * segmentSizes[i] ≤ 2 ^ 64` nothing wraps, the address is the sum itself and
lies in `[i * segmentSizes[i], (i + 1) * segmentSizes[i])`. -/
theorem aaa_minted_address (g : AAAGamesWorkload) (index : Int) (rnd : Nat → Nat)
    (pos : Nat) (hne : g.segmentSizes ≠ []) (hpos : ∀ s ∈ g.segmentSizes, 0 < s) :
    ∃ sz, rnd pos % g.segmentSizes.length < g.segmentSizes.length ∧
      g.segmentSizes.get? (rnd pos % g.segmentSizes.length) = some sz ∧ 0 < sz ∧
      generateAssetAddress g index rnd pos
        = some (formatAddress
            ((rnd pos % g.segmentSizes.length * sz + rnd (pos + 1) % sz) % 2 ^ 64),
            pos + 2) ∧
      ((rnd pos % g.segmentSizes.length + 1) * sz ≤ 2 ^ 64 →
        generateAssetAddress g index rnd pos
          = some (formatAddress
              (rnd pos % g.segmentSizes.length * sz + rnd (pos + 1) % sz), pos + 2) ∧
        rnd pos % g.segmentSizes.length * sz
          ≤ rnd pos % g.segmentSizes.length * sz + rnd (pos + 1) % sz ∧
        rnd pos % g.segmentSizes.length * sz + rnd (pos + 1) % sz
          < (rnd pos % g.segmentSizes.length + 1) * sz) := by
  have hlen : 0 < g.segmentSizes.length := List.length_pos.2 hne
  have hidx : rnd pos % g.segmentSizes.length < g.segmentSizes.length := Nat.mod_lt _ hlen
  have hget : g.segmentSizes.get? (rnd pos % g.segmentSizes.length)
      = some (g.segmentSizes.get ⟨rnd pos % g.segmentSizes.length, hidx⟩) :=
    List.get?_eq_get hidx
  have hsz : 0 < g.segmentSizes.get ⟨rnd pos % g.segmentSizes.length, hidx⟩ :=
    hpos _ (List.get_mem _ _ _)
  generalize g.segmentSizes.get ⟨rnd pos % g.segmentSizes.length, hidx⟩ = sz at hget hsz
  have hmain : generateAssetAddress g index rnd pos
      = some (formatAddress
          ((rnd pos % g.segmentSizes.length * sz + rnd (pos + 1) % sz) % 2 ^ 64),
          pos + 2) := by
    unfold generateAssetAddress
    rw [if_neg (by omega)]
    simp only [hget]
    rw [if_neg (by omega)]
    rfl
  refine ⟨sz, hidx, hget, hsz, hmain, ?_⟩
  intro hno
  have hoff : rnd (pos + 1) % sz < sz := Nat.mod_lt _ hsz
  have hsucc : (rnd pos % g.segmentSizes.length + 1) * sz
      = rnd pos % g.segmentSizes.length * sz + sz := Nat.succ_mul _ _
  refine ⟨?_, by omega, by omega⟩
  rw [hmain, Nat.mod_eq_of_lt (by omega)]

/-- Witness of `aaa_minted_address`: the sizes of `main`, stream values 1 and 5. -/
theorem aaa_minted_address_witness :
    ∃ sz, (fun i => if i = 0 then 1 else 5) 0 % [0x800, 0x1000, 0x2000].length
          < [0x800, 0x1000, 0x2000].length ∧
      [0x800, 0x1000, 0x2000].get?
          ((fun i => if i = 0 then 1 else 5) 0 % [0x800, 0x1000, 0x2000].length) = some sz ∧
      0 < sz ∧
      AAAGamesWorkload.generateAssetAddress ⟨0, 0, [0x800, 0x1000, 0x2000], [], []⟩ 0
          (fun i => if i = 0 then 1 else 5) 0
        = some (formatAddress
            (((fun i => if i = 0 then 1 else 5) 0 % [0x800, 0x1000, 0x2000].length * sz
              + (fun i => if i = 0 then 1 else 5) (0 + 1) % sz) % 2 ^ 64), 0 + 2) := by
  obtain ⟨sz, h1, h2, h3, h4, _⟩ :=
    aaa_minted_address ⟨0, 0, [0x800, 0x1000, 0x2000], [], []⟩ 0
      (fun i => if i = 0 then 1 else 5) 0 (by decide) (by decide)
  exact ⟨sz, h1, h2, h3, h4⟩

open AAAGamesWorkload in
/-- C15: the member `addresses` of a constructed `AAAGamesWorkload` is empty and no member
function writes it, so every call of `generateFullHexAddress` that returns has minted its
string and read exactly three stream values; `generateWorkload n` ends `3 * max n 0`
positions further (and returns for a non-empty list of positive sizes); and two objects
constructed from the same stream that differ only in `reuseProbability` give the same
result of `generateWorkload n`. -/
theorem aaa_reuseProbability_unused (numAssets : Int) (p1 p2 : ℚ) (sizes : List Nat)
    (rnd : Nat → Nat) (n : Int) :
    ((AAAGamesWorkload.new numAssets p1 sizes rnd).bind
          (fun gp => gp.1.generateWorkload n rnd gp.2)
        = (AAAGamesWorkload.new numAssets p2 sizes rnd).bind
          (fun gp => gp.1.generateWorkload n rnd gp.2)) ∧
    (∀ g pos, AAAGamesWorkload.new numAssets p1 sizes rnd = some (g, pos) →
      g.addresses = [] ∧
      (∀ q a q1, generateFullHexAddress g rnd q = some (a, q1) →
        q1 = q + 3 ∧
        generateAssetAddress g (toInt32 g.assets.length) rnd (q + 1) = some (a, q1)) ∧
      (∀ out q, g.generateWorkload n rnd pos = some (out, q) →
        q = pos + 3 * n.toNat ∧ out.length = n.toNat) ∧
      (sizes ≠ [] → (∀ s ∈ sizes, 0 < s) →
        ∃ out, g.generateWorkload n rnd pos = some (out, pos + 3 * n.toNat))) := by
  constructor
  · rw [aaa_new_reuseProbability numAssets p1 p2 sizes rnd]
    cases hg : AAAGamesWorkload.new numAssets p1 sizes rnd with
    | none => simp only [Option.map_none', Option.none_bind]
    | some gp =>
      obtain ⟨g, pos⟩ := gp
      obtain ⟨_, _, _, hnil, _⟩ := aaa_new_fields hg
      simp only [Option.map_some', Option.some_bind, AAAGamesWorkload.generateWorkload]
      exact (aaa_generateWorkloadLoop_reuseProbability g p2 rnd hnil _ _ _).symm
  · intro g pos hg
    obtain ⟨_, _, hsz, hnil, _⟩ := aaa_new_fields hg
    refine ⟨hnil, fun q a q1 h => aaa_generateFullHexAddress_three g rnd hnil h,
      fun out q h => aaa_generateWorkloadLoop_pos g rnd hnil _ _ _ _ h, ?_⟩
    intro hne hpos
    exact ⟨_, aaa_generateWorkloadLoop_minted g rnd hnil (hsz ▸ hne) (hsz ▸ hpos) n.toNat pos⟩

/-- Witness of `aaa_reuseProbability_unused`: probabilities 0 and 1, sizes `{4, 2}`. -/
theorem aaa_reuseProbability_unused_witness :
    (AAAGamesWorkload.new 0 0 [4, 2] (fun i => i)).bind
        (fun gp => gp.1.generateWorkload 2 (fun i => i) gp.2)
      = (AAAGamesWorkload.new 0 1 [4, 2] (fun i => i)).bind
        (fun gp => gp.1.generateWorkload 2 (fun i => i) gp.2) :=
  (aaa_reuseProbability_unused 0 0 1 [4, 2] (fun i => i) 2).1

/-- C18: the formatting is injective: equal formatted strings come from equal values (in
particular for all 64-bit values, also above `0xFFFFFFFF`), and the value is read back
from the characters after the `0x`. -/
theorem formatAddress_recoverable (v1 v2 : Nat) (h : formatAddress v1 = formatAddress v2) :
    v1 = v2 ∧ hexValue ((formatAddress v1).data.drop 2) = v1 ∧
      (formatAddress v1).data.take 2 = ['0', 'x'] := by
  refine ⟨formatAddress_injective h, ?_, ?_⟩
  · rw [formatAddress_data]
    show hexValue (List.replicate _ '0' ++ hexDigits v1) = v1
    rw [hexValue_replicate_zero_append, hexValue_hexDigits]
  · rw [formatAddress_data]
    rfl

/-- Witness of `formatAddress_recoverable`: the value `0x123456789`, written in two ways. -/
theorem formatAddress_recoverable_witness :
    (0x123456789 : Nat) = 0x123456780 + 9 ∧
      hexValue ((formatAddress 0x123456789).data.drop 2) = 0x123456789 ∧
      (formatAddress 0x123456789).data.take 2 = ['0', 'x'] :=
  formatAddress_recoverable 0x123456789 (0x123456780 + 9) (by decide)

end Workloads
